import Mathlib

namespace Nanobot

/-- JSON values, as handled by the schema sanitizer. Python dicts are
modelled as association lists in insertion order (Python dicts cannot hold
duplicate keys; operations below replace the first occurrence, matching
dict assignment semantics). -/
inductive JVal where
  | null
  | bool (b : Bool)
  | num (n : Int)
  | str (s : String)
  | arr (xs : List JVal)
  | obj (kvs : List (String × JVal))

mutual

/-- Size of a JSON value, used as the termination measure for the sanitizer. -/
def sizeJ : JVal → Nat
  | .null => 1
  | .bool _ => 1
  | .num _ => 1
  | .str _ => 1
  | .arr xs => 1 + sizeA xs
  | .obj kvs => 1 + sizeO kvs

/-- Size of a JSON array body. -/
def sizeA : List JVal → Nat
  | [] => 0
  | x :: xs => 1 + sizeJ x + sizeA xs

/-- Size of a JSON object body. -/
def sizeO : List (String × JVal) → Nat
  | [] => 0
  | (_, v) :: kvs => 1 + sizeJ v + sizeO kvs

end

theorem sizeJ_pos (v : JVal) : 1 ≤ sizeJ v := by
  cases v <;> simp [sizeJ]

mutual

/-- Structural equality of JSON values (Python `==` on parsed JSON). -/
def beqJ : JVal → JVal → Bool
  | .null, .null => true
  | .bool a, .bool b => a == b
  | .num a, .num b => a == b
  | .str a, .str b => a == b
  | .arr a, .arr b => beqA a b
  | .obj a, .obj b => beqO a b
  | _, _ => false

/-- Structural equality of JSON arrays. -/
def beqA : List JVal → List JVal → Bool
  | [], [] => true
  | a :: as2, b :: bs => beqJ a b && beqA as2 bs
  | _, _ => false

/-- Structural equality of JSON objects. -/
def beqO : List (String × JVal) → List (String × JVal) → Bool
  | [], [] => true
  | (k1, v1) :: as2, (k2, v2) :: bs => k1 == k2 && beqJ v1 v2 && beqO as2 bs
  | _, _ => false

end

instance : BEq JVal := ⟨beqJ⟩

/-! ### Python dict operations on association lists

`dlookup` / `dget` model `d[k]` / `d.get(k)`, `dhas` models `k in d`,
`dset` models `d[k] = v` (replace in place, else append), `dmerge` models
`{**a, **b}` / `a.update(b)`. -/

/-- Membership test, `k in d`. -/
def dhas (kvs : List (String × JVal)) (k : String) : Bool :=
  kvs.any (fun kv => kv.1 == k)

/-- Key lookup, `d.get(k)`. -/
def dlookup : List (String × JVal) → String → Option JVal
  | [], _ => none
  | (k', v) :: rest, k => if k' == k then some v else dlookup rest k

/-- Key lookup with `null` default (callers only use it when the key exists). -/
def dget (kvs : List (String × JVal)) (k : String) : JVal :=
  (dlookup kvs k).getD .null

/-- Dict assignment `d[k] = v`: replace the value in place, else append. -/
def dset : List (String × JVal) → String → JVal → List (String × JVal)
  | [], k, v => [(k, v)]
  | (k', v') :: rest, k, v =>
    if k' == k then (k, v) :: rest else (k', v') :: dset rest k v

/-- Dict merge `{**a, **b}`: entries of `b` assigned into `a` in order. -/
def dmerge (a b : List (String × JVal)) : List (String × JVal) :=
  b.foldl (fun m kv => dset m kv.1 kv.2) a

theorem dlookup_isSome_of_dhas {kvs : List (String × JVal)} {k : String}
    (h : dhas kvs k = true) : (dlookup kvs k).isSome := by
  induction kvs with
  | nil => simp [dhas] at h
  | cons hd tl ih =>
    obtain ⟨k', v⟩ := hd
    simp only [dhas, List.any_cons] at h
    simp only [dlookup]
    by_cases hk : k' == k
    · simp [hk]
    · simp only [hk, if_false]
      simp only [hk, Bool.false_or] at h
      exact ih h

theorem dhas_of_dlookup {kvs : List (String × JVal)} {k : String} {v : JVal}
    (h : dlookup kvs k = some v) : dhas kvs k = true := by
  induction kvs with
  | nil => simp [dlookup] at h
  | cons hd tl ih =>
    obtain ⟨k', w⟩ := hd
    simp only [dlookup] at h
    simp only [dhas, List.any_cons]
    by_cases hk : k' == k
    · simp [hk]
    · simp only [hk, if_false] at h
      simp [hk, ih h, dhas] at *
      exact ih h

theorem dlookup_dset_self (kvs : List (String × JVal)) (k : String) (v : JVal) :
    dlookup (dset kvs k v) k = some v := by
  induction kvs with
  | nil => simp [dset, dlookup]
  | cons hd tl ih =>
    obtain ⟨k', w⟩ := hd
    simp only [dset]
    by_cases hk : k' == k
    · simp [hk, dlookup]
    · simp [hk, dlookup, ih]

theorem dlookup_dset_ne (kvs : List (String × JVal)) {k k' : String} (v : JVal)
    (h : k' ≠ k) : dlookup (dset kvs k' v) k = dlookup kvs k := by
  induction kvs with
  | nil => simp [dset, dlookup, h]
  | cons hd tl ih =>
    obtain ⟨k₀, w⟩ := hd
    simp only [dset]
    by_cases hk : k₀ == k'
    · have hk0 : k₀ = k' := by simpa using hk
      subst hk0
      simp [dlookup, h, beq_iff_eq]
    · simp [hk, dlookup, ih]

theorem dhas_dset_ne (kvs : List (String × JVal)) {k k' : String} (v : JVal)
    (h : k' ≠ k) : dhas (dset kvs k' v) k = dhas kvs k := by
  induction kvs with
  | nil => simp [dset, dhas, h]
  | cons hd tl ih =>
    obtain ⟨k₀, w⟩ := hd
    simp only [dset]
    by_cases hk : k₀ == k'
    · have hk0 : k₀ = k' := by simpa using hk
      subst hk0
      simp [dhas, h, beq_iff_eq]
    · simp only [hk, Bool.false_eq_true, ite_false]
      simp only [dhas, List.any_cons] at ih ⊢
      rw [ih]

/-! ### Size lemmas for the sanitizer's termination -/

theorem sizeO_filter_le (kvs : List (String × JVal)) (p : String × JVal → Bool) :
    sizeO (kvs.filter p) ≤ sizeO kvs := by
  induction kvs with
  | nil => simp
  | cons hd tl ih =>
    obtain ⟨k, v⟩ := hd
    by_cases hp : p (k, v)
    · simp [List.filter_cons, hp, sizeO]
      omega
    · simp [List.filter_cons, hp, sizeO]
      omega

theorem sizeO_filter_mono (kvs : List (String × JVal)) (p q : String × JVal → Bool)
    (h : ∀ kv, p kv = true → q kv = true) :
    sizeO (kvs.filter p) ≤ sizeO (kvs.filter q) := by
  induction kvs with
  | nil => simp
  | cons hd tl ih =>
    obtain ⟨k, v⟩ := hd
    by_cases hp : p (k, v)
    · simp [List.filter_cons, hp, h _ hp, sizeO]
      omega
    · by_cases hq : q (k, v)
      · simp [List.filter_cons, hp, hq, sizeO]
        omega
      · simp [List.filter_cons, hp, hq, sizeO]
        exact ih

theorem sizeO_dset_not_has (kvs : List (String × JVal)) (k : String) (v : JVal)
    (h : dhas kvs k = false) :
    sizeO (dset kvs k v) = sizeO kvs + 1 + sizeJ v := by
  induction kvs with
  | nil => simp [dset, sizeO]
  | cons hd tl ih =>
    obtain ⟨k', w⟩ := hd
    simp only [dhas, List.any_cons, Bool.or_eq_false_iff] at h
    simp only [dset, h.1, if_false, sizeO]
    rw [ih h.2]
    omega

theorem sizeO_dset_has (kvs : List (String × JVal)) (k : String) (v : JVal)
    (h : dhas kvs k = true) :
    sizeO (dset kvs k v) + sizeJ (dget kvs k) = sizeO kvs + sizeJ v := by
  induction kvs with
  | nil => simp [dhas] at h
  | cons hd tl ih =>
    obtain ⟨k', w⟩ := hd
    by_cases hk : k' == k
    · simp [dset, hk, dget, dlookup, sizeO]
      omega
    · simp only [dhas, List.any_cons, hk, Bool.false_or] at h
      simp only [dset, hk, if_false, sizeO, dget, dlookup, Bool.false_eq_true, ite_false]
      have := ih h
      simp only [dget] at this
      omega

theorem sizeO_dset_le (kvs : List (String × JVal)) (k : String) (v : JVal) :
    sizeO (dset kvs k v) ≤ sizeO kvs + 1 + sizeJ v := by
  by_cases h : dhas kvs k
  · have h1 := sizeO_dset_has kvs k v h
    have h2 := sizeJ_pos (dget kvs k)
    omega
  · rw [sizeO_dset_not_has kvs k v (by simpa using h)]

theorem sizeO_dmerge_le (a b : List (String × JVal)) :
    sizeO (dmerge a b) ≤ sizeO a + sizeO b := by
  induction b generalizing a with
  | nil => simp [dmerge]
  | cons hd tl ih =>
    obtain ⟨k, v⟩ := hd
    simp only [dmerge, List.foldl_cons] at *
    have h1 := sizeO_dset_le a k v
    have h2 := ih (dset a k v)
    simp only [sizeO]
    omega

/-! ### Schema-sanitizer constants (constants.py) -/

/-- JSON Schema keys rejected by the Gemini API (REJECTED_SCHEMA_KEYS). -/
def REJECTED_SCHEMA_KEYS : List String :=
  ["const", "$ref", "$defs", "default", "examples", "title"]

/-- JSON Schema composition keys that need special handling. -/
def COMPOSITION_SCHEMA_KEYS : List String := ["anyOf", "oneOf", "allOf"]

/-! ### Composition resolution (transform.py, resolve composition helper) -/

/-- First-occurrence deduplication, Python `list(dict.fromkeys(xs))`:
keep each element's first occurrence, in order (equivalently: keep the head
and drop it from the deduplicated tail). -/
def dedup_first : List JVal → List JVal
  | [] => []
  | x :: xs => x :: (dedup_first xs).filter (fun y => !(y == x))

/-- Merge of two `properties` values: Python `\x7b**merged[k], **v\x7d`.
The source raises a TypeError when either side is not a dict; that case is
unreachable for the schemas the sanitizer is given and is modelled as
taking the right operand. -/
def union_vals : JVal → JVal → JVal
  | .obj a, .obj b => .obj (dmerge a b)
  | _, v => v

/-- Merge of two `required` values: `list(dict.fromkeys(merged[k] + v))`.
Non-list operands raise in the source and are modelled as the right operand. -/
def concat_required : JVal → JVal → JVal
  | .arr a, .arr b => .arr (dedup_first (a ++ b))
  | _, v => v

/-- One assignment step of the allOf merge loop (`for k, v in sub.items()`). -/
def merge_sub_step (m : List (String × JVal)) (kv : String × JVal) :
    List (String × JVal) :=
  if kv.1 == "properties" && dhas m kv.1 then
    dset m kv.1 (union_vals (dget m kv.1) kv.2)
  else if kv.1 == "required" && dhas m kv.1 then
    dset m kv.1 (concat_required (dget m kv.1) kv.2)
  else dset m kv.1 kv.2

/-- The allOf branch: start from the schema minus its `allOf` key and fold
every dict sub-schema in. -/
def merge_all_of (kvs : List (String × JVal)) (subs : List JVal) :
    List (String × JVal) :=
  subs.foldl
    (fun m sub =>
      match sub with
      | .obj es => es.foldl merge_sub_step m
      | _ => m)
    (kvs.filter (fun kv => !(kv.1 == "allOf")))

/-- `s.get("type") != "null"` on a dict sub-schema (non-dicts are filtered out). -/
def is_non_null_schema : JVal → Bool
  | .obj es => !(dlookup es "type" == some (.str "null"))
  | _ => false

/-- Branch choice for multi-item anyOf/oneOf: first non-null branch, else the
first item. -/
def choose_branch (items : List JVal) : JVal :=
  match items.filter is_non_null_schema with
  | c :: _ => c
  | [] => items.headD .null

/-- One iteration of the `for key in ("anyOf", "oneOf")` loop: `some` result
means the loop returned, `none` means it moved on. -/
def resolve_one_of_key (kvs : List (String × JVal)) (key : String) :
    Option (List (String × JVal)) :=
  if dhas kvs key then
    match dget kvs key with
    | .arr items =>
      if items.isEmpty then none
      else
        match choose_branch items with
        | .obj centries =>
          some (dmerge
            (kvs.filter (fun kv => !(COMPOSITION_SCHEMA_KEYS.contains kv.1)))
            centries)
        | _ => none
    | _ => none
  else none

/-- Resolve anyOf/oneOf/allOf into a flat schema (transform.py). -/
def resolve_composition (kvs : List (String × JVal)) : List (String × JVal) :=
  let allOfRes : Option (List (String × JVal)) :=
    if dhas kvs "allOf" then
      match dget kvs "allOf" with
      | .arr (s :: rest) => some (merge_all_of kvs (s :: rest))
      | _ => none
    else none
  match allOfRes with
  | some r => r
  | none =>
    match resolve_one_of_key kvs "anyOf" with
    | some r => r
    | none =>
      match resolve_one_of_key kvs "oneOf" with
      | some r => r
      | none => kvs

/-! ### Size bounds for `resolve_composition` -/

theorem sizeA_filter_le (xs : List JVal) (p : JVal → Bool) :
    sizeA (xs.filter p) ≤ sizeA xs := by
  induction xs with
  | nil => simp
  | cons hd tl ih =>
    by_cases hp : p hd
    · simp [List.filter_cons, hp, sizeA]
      omega
    · simp [List.filter_cons, hp, sizeA]
      omega

theorem sizeA_dedup_first_le (xs : List JVal) : sizeA (dedup_first xs) ≤ sizeA xs := by
  induction xs with
  | nil => simp [dedup_first]
  | cons x rest ih =>
    simp only [dedup_first, sizeA]
    have h1 := sizeA_filter_le (dedup_first rest) (fun y => !(y == x))
    omega

theorem sizeA_append (a b : List JVal) : sizeA (a ++ b) = sizeA a + sizeA b := by
  induction a with
  | nil => simp [sizeA]
  | cons hd tl ih => simp [sizeA, ih]; omega

theorem sizeJ_union_vals_le (a b : JVal) :
    sizeJ (union_vals a b) ≤ sizeJ a + sizeJ b := by
  cases a <;> cases b <;> simp [union_vals, sizeJ] <;> try omega
  case obj.obj x y =>
    have := sizeO_dmerge_le x y
    omega

theorem sizeJ_concat_required_le (a b : JVal) :
    sizeJ (concat_required a b) ≤ sizeJ a + sizeJ b := by
  cases a <;> cases b <;> simp [concat_required, sizeJ] <;> try omega
  case arr.arr x y =>
    have h1 := sizeA_dedup_first_le (x ++ y)
    rw [sizeA_append] at h1
    omega

theorem sizeO_merge_sub_step_le (m : List (String × JVal)) (kv : String × JVal) :
    sizeO (merge_sub_step m kv) ≤ sizeO m + 1 + sizeJ kv.2 := by
  obtain ⟨k, v⟩ := kv
  simp only [merge_sub_step]
  by_cases h1 : (k == "properties" && dhas m k) = true
  · rw [if_pos h1]
    have hh : dhas m k = true := by
      simp only [Bool.and_eq_true] at h1
      exact h1.2
    have hs := sizeO_dset_has m k (union_vals (dget m k) v) hh
    have hu := sizeJ_union_vals_le (dget m k) v
    omega
  · rw [if_neg h1]
    by_cases h2 : (k == "required" && dhas m k) = true
    · rw [if_pos h2]
      have hh : dhas m k = true := by
        simp only [Bool.and_eq_true] at h2
        exact h2.2
      have hs := sizeO_dset_has m k (concat_required (dget m k) v) hh
      have hu := sizeJ_concat_required_le (dget m k) v
      omega
    · rw [if_neg h2]
      exact sizeO_dset_le m k v

theorem sizeO_foldl_merge_sub_step_le (es : List (String × JVal))
    (m : List (String × JVal)) :
    sizeO (es.foldl merge_sub_step m) ≤ sizeO m + sizeO es := by
  induction es generalizing m with
  | nil => simp
  | cons hd tl ih =>
    simp only [List.foldl_cons, sizeO]
    have h1 := sizeO_merge_sub_step_le m hd
    have h2 := ih (merge_sub_step m hd)
    obtain ⟨k, v⟩ := hd
    simp only at h1 h2 ⊢
    omega

theorem sizeO_filter_key_le (kvs : List (String × JVal)) (k : String) (w : JVal)
    (h : dlookup kvs k = some w) :
    sizeO (kvs.filter (fun kv => !(kv.1 == k))) + 1 + sizeJ w ≤ sizeO kvs := by
  induction kvs with
  | nil => simp [dlookup] at h
  | cons hd tl ih =>
    obtain ⟨k', v⟩ := hd
    simp only [dlookup] at h
    by_cases hk : k' == k
    · simp only [hk, if_true] at h
      injection h with h
      subst h
      simp only [List.filter_cons, hk, Bool.not_true, sizeO]
      have := sizeO_filter_le tl (fun kv => !(kv.1 == k))
      simp only [Bool.false_eq_true, ite_false]
      omega
    · simp only [hk, if_false] at h
      simp only [List.filter_cons, hk, Bool.not_false, sizeO, ite_true]
      have := ih h
      omega

theorem sizeJ_mem_le {x : JVal} {xs : List JVal} (h : x ∈ xs) :
    1 + sizeJ x ≤ sizeA xs := by
  induction xs with
  | nil => simp at h
  | cons hd tl ih =>
    rcases List.mem_cons.mp h with h | h
    · subst h
      simp only [sizeA]
      omega
    · have := ih h
      simp only [sizeA]
      omega

theorem choose_branch_mem (items : List JVal) (h : items ≠ []) :
    choose_branch items ∈ items := by
  unfold choose_branch
  cases hf : items.filter is_non_null_schema with
  | cons c cs =>
    have hc : c ∈ items.filter is_non_null_schema := by
      rw [hf]
      exact List.mem_cons_self _ _
    exact List.mem_of_mem_filter hc
  | nil =>
    cases items with
    | nil => exact absurd rfl h
    | cons x xs =>
      simp only [List.headD_cons]
      exact List.mem_cons_self _ _

theorem sizeO_merge_all_of_le (kvs : List (String × JVal)) (subs : List JVal) :
    sizeO (merge_all_of kvs subs) ≤
      sizeO (kvs.filter (fun kv => !(kv.1 == "allOf"))) + sizeA subs := by
  unfold merge_all_of
  generalize kvs.filter (fun kv => !(kv.1 == "allOf")) = m
  induction subs generalizing m with
  | nil => simp
  | cons hd tl ih =>
    simp only [List.foldl_cons, sizeA]
    cases hd with
    | obj es =>
      have h1 := sizeO_foldl_merge_sub_step_le es m
      have h2 := ih (es.foldl merge_sub_step m)
      simp only [sizeJ] at *
      omega
    | null => have := ih m; simp [sizeJ] at *; omega
    | bool b => have := ih m; simp [sizeJ] at *; omega
    | num n => have := ih m; simp [sizeJ] at *; omega
    | str s => have := ih m; simp [sizeJ] at *; omega
    | arr xs => have := ih m; simp [sizeJ] at *; omega

theorem sizeO_resolve_one_of_key_le (kvs r : List (String × JVal)) (key : String)
    (hkey : COMPOSITION_SCHEMA_KEYS.contains key = true)
    (h : resolve_one_of_key kvs key = some r) :
    sizeO r ≤ sizeO kvs := by
  unfold resolve_one_of_key at h
  by_cases hh : dhas kvs key
  · simp only [hh, if_true] at h
    cases hget : dget kvs key with
    | arr items =>
      rw [hget] at h
      by_cases he : items.isEmpty
      · simp [he] at h
      · simp only [he, if_false, Bool.false_eq_true] at h
        cases hc : choose_branch items with
        | obj centries =>
          rw [hc] at h
          simp only [Option.some_inj] at h
          subst h
          have hne : items ≠ [] := by
            intro hx; subst hx; simp [List.isEmpty] at he
          have hmem := choose_branch_mem items hne
          rw [hc] at hmem
          have hsz : 1 + sizeJ (.obj centries) ≤ sizeA items := sizeJ_mem_le hmem
          have hlk : dlookup kvs key = some (.arr items) := by
            have := dlookup_isSome_of_dhas hh
            cases hl : dlookup kvs key with
            | none => rw [hl] at this; simp at this
            | some w =>
              simp only [dget, hl, Option.getD_some] at hget
              rw [hget]
          have hf := sizeO_filter_key_le kvs key (.arr items) hlk
          have hmono := sizeO_filter_mono kvs
            (fun kv => !(COMPOSITION_SCHEMA_KEYS.contains kv.1))
            (fun kv => !(kv.1 == key))
            (by
              intro kv hp
              simp only [Bool.not_eq_true'] at hp ⊢
              rw [beq_eq_false_iff_ne]
              intro hkk
              rw [hkk] at hp
              rw [hkey] at hp
              simp at hp)
          have hm := sizeO_dmerge_le
            (kvs.filter (fun kv => !(COMPOSITION_SCHEMA_KEYS.contains kv.1))) centries
          simp only [sizeJ] at *
          omega
        | null => rw [hc] at h; simp at h
        | bool b => rw [hc] at h; simp at h
        | num n => rw [hc] at h; simp at h
        | str s => rw [hc] at h; simp at h
        | arr xs => rw [hc] at h; simp at h
    | null => rw [hget] at h; simp at h
    | bool b => rw [hget] at h; simp at h
    | num n => rw [hget] at h; simp at h
    | str s => rw [hget] at h; simp at h
    | obj es => rw [hget] at h; simp at h
  · simp [hh] at h

theorem sizeO_resolve_composition_le (kvs : List (String × JVal)) :
    sizeO (resolve_composition kvs) ≤ sizeO kvs := by
  unfold resolve_composition
  by_cases hh : dhas kvs "allOf"
  · simp only [hh, if_true]
    cases hget : dget kvs "allOf" with
    | arr items =>
      cases items with
      | nil =>
        simp only
        cases h1 : resolve_one_of_key kvs "anyOf" with
        | some r => exact sizeO_resolve_one_of_key_le kvs r "anyOf" (by decide) h1
        | none =>
          cases h2 : resolve_one_of_key kvs "oneOf" with
          | some r => exact sizeO_resolve_one_of_key_le kvs r "oneOf" (by decide) h2
          | none => simp
      | cons s rest =>
        simp only
        have h1 := sizeO_merge_all_of_le kvs (s :: rest)
        have hlk : dlookup kvs "allOf" = some (.arr (s :: rest)) := by
          have := dlookup_isSome_of_dhas hh
          cases hl : dlookup kvs "allOf" with
          | none => rw [hl] at this; simp at this
          | some w =>
            simp only [dget, hl, Option.getD_some] at hget
            rw [hget]
        have h2 := sizeO_filter_key_le kvs "allOf" (.arr (s :: rest)) hlk
        simp only [sizeJ] at h2
        omega
    | null =>
      simp only
      cases h1 : resolve_one_of_key kvs "anyOf" with
      | some r => exact sizeO_resolve_one_of_key_le kvs r "anyOf" (by decide) h1
      | none =>
        cases h2 : resolve_one_of_key kvs "oneOf" with
        | some r => exact sizeO_resolve_one_of_key_le kvs r "oneOf" (by decide) h2
        | none => simp
    | bool b =>
      simp only
      cases h1 : resolve_one_of_key kvs "anyOf" with
      | some r => exact sizeO_resolve_one_of_key_le kvs r "anyOf" (by decide) h1
      | none =>
        cases h2 : resolve_one_of_key kvs "oneOf" with
        | some r => exact sizeO_resolve_one_of_key_le kvs r "oneOf" (by decide) h2
        | none => simp
    | num n =>
      simp only
      cases h1 : resolve_one_of_key kvs "anyOf" with
      | some r => exact sizeO_resolve_one_of_key_le kvs r "anyOf" (by decide) h1
      | none =>
        cases h2 : resolve_one_of_key kvs "oneOf" with
        | some r => exact sizeO_resolve_one_of_key_le kvs r "oneOf" (by decide) h2
        | none => simp
    | str s =>
      simp only
      cases h1 : resolve_one_of_key kvs "anyOf" with
      | some r => exact sizeO_resolve_one_of_key_le kvs r "anyOf" (by decide) h1
      | none =>
        cases h2 : resolve_one_of_key kvs "oneOf" with
        | some r => exact sizeO_resolve_one_of_key_le kvs r "oneOf" (by decide) h2
        | none => simp
    | obj es =>
      simp only
      cases h1 : resolve_one_of_key kvs "anyOf" with
      | some r => exact sizeO_resolve_one_of_key_le kvs r "anyOf" (by decide) h1
      | none =>
        cases h2 : resolve_one_of_key kvs "oneOf" with
        | some r => exact sizeO_resolve_one_of_key_le kvs r "oneOf" (by decide) h2
        | none => simp
  · simp only [hh, Bool.false_eq_true, ite_false]
    cases h1 : resolve_one_of_key kvs "anyOf" with
    | some r => exact sizeO_resolve_one_of_key_le kvs r "anyOf" (by decide) h1
    | none =>
      cases h2 : resolve_one_of_key kvs "oneOf" with
      | some r => exact sizeO_resolve_one_of_key_le kvs r "oneOf" (by decide) h2
      | none => simp

/-! ### sanitize_schema (transform.py) -/

mutual

/-- Recursively strip JSON Schema keys rejected by Gemini (transform.py,
`sanitize_schema`): non-dicts are returned unchanged; dicts first resolve
composition keywords, then each entry is filtered/rewritten/recursed. -/
def sanitize_schema (s : JVal) : JVal :=
  match s with
  | .obj kvs => .obj (sanitize_entries (resolve_composition kvs) [])
  | v => v
termination_by sizeJ s
decreasing_by
  have h1 := sizeO_resolve_composition_le es
  simp only [sizeJ]
  omega

/-- The `for key, value in schema.items()` loop of `sanitize_schema`,
building `result` by dict assignment. -/
def sanitize_entries (kvs : List (String × JVal)) (result : List (String × JVal)) :
    List (String × JVal) :=
  match kvs with
  | [] => result
  | (k, v) :: rest =>
    sanitize_entries rest
      (if REJECTED_SCHEMA_KEYS.contains k then
        (if k == "const" then dset result "enum" (.arr [v]) else result)
      else if COMPOSITION_SCHEMA_KEYS.contains k then result
      else
        match v with
        | .obj es => dset result k (sanitize_schema (.obj es))
        | .arr xs => dset result k (.arr (sanitize_list xs))
        | .null => dset result k .null
        | .bool b => dset result k (.bool b)
        | .num n => dset result k (.num n)
        | .str t => dset result k (.str t))
termination_by sizeO kvs
decreasing_by
  all_goals simp only [sizeO, sizeJ, sizeA]
  all_goals omega

/-- List values inside a schema: dict items are sanitized, others kept. -/
def sanitize_list (xs : List JVal) : List JVal :=
  match xs with
  | [] => []
  | x :: rest =>
    (match x with
     | .obj es => sanitize_schema (.obj es)
     | .null => .null
     | .bool b => .bool b
     | .num n => .num n
     | .str t => .str t
     | .arr ys => .arr ys) :: sanitize_list rest
termination_by sizeA xs
decreasing_by
  all_goals simp only [sizeO, sizeJ, sizeA]
  all_goals omega

end

/-! ### Purity of sanitized schemas

`clean_entries` states that a rebuilt dict carries no rejected key and that
every value the sanitizer recursed into (dict values of non-`enum` keys and
dict elements of list values) is recursively clean. `enum` values are
exempt: `const` rewriting carries the original value verbatim. -/

mutual

/-- No rejected key in a rebuilt dict, recursively. -/
def clean_entries : List (String × JVal) → Bool
  | [] => true
  | (k, v) :: rest =>
    (!(REJECTED_SCHEMA_KEYS.contains k)) &&
      ((k == "enum") || clean_value v) && clean_entries rest
termination_by kvs => sizeO kvs
decreasing_by
  all_goals simp only [sizeO, sizeJ, sizeA]
  all_goals omega

/-- Cleanliness of one stored value: dicts recursively clean, lists with
clean dict elements, scalars trivially clean. -/
def clean_value : JVal → Bool
  | .obj kvs => clean_entries kvs
  | .arr xs => clean_elems xs
  | .null => true
  | .bool _ => true
  | .num _ => true
  | .str _ => true
termination_by v => sizeJ v
decreasing_by
  all_goals simp only [sizeO, sizeJ, sizeA]
  all_goals omega

/-- Cleanliness of list elements: dict items recursively clean, others
trivially clean (the sanitizer leaves them untouched). -/
def clean_elems : List JVal → Bool
  | [] => true
  | x :: xs =>
    (match x with
     | .obj kvs => clean_entries kvs
     | .null => true
     | .bool _ => true
     | .num _ => true
     | .str _ => true
     | .arr _ => true) && clean_elems xs
termination_by xs => sizeA xs
decreasing_by
  all_goals simp only [sizeO, sizeJ, sizeA]
  all_goals omega

end

/-- Cleanliness of a sanitizer output: only dict outputs are constrained
(non-dict inputs are returned verbatim). -/
def clean_schema : JVal → Bool
  | .obj kvs => clean_entries kvs
  | _ => true

theorem clean_entries_dset (res : List (String × JVal)) (k : String) (v : JVal)
    (hres : clean_entries res = true)
    (hk : REJECTED_SCHEMA_KEYS.contains k = false)
    (hv : ((k == "enum") || clean_value v) = true) :
    clean_entries (dset res k v) = true := by
  induction res with
  | nil =>
    simp only [dset, clean_entries, Bool.and_eq_true, Bool.not_eq_true']
    exact ⟨⟨hk, hv⟩, trivial⟩
  | cons hd tl ih =>
    obtain ⟨k', v'⟩ := hd
    simp only [clean_entries, Bool.and_eq_true] at hres
    simp only [dset]
    by_cases hkk : (k' == k) = true
    · rw [if_pos hkk]
      simp only [clean_entries, Bool.and_eq_true, Bool.not_eq_true']
      exact ⟨⟨hk, hv⟩, hres.2⟩
    · rw [if_neg hkk]
      simp only [clean_entries, Bool.and_eq_true]
      exact ⟨hres.1, ih hres.2⟩

theorem clean_sanitize (n : Nat) :
    ∀ s, sizeJ s ≤ n → clean_schema (sanitize_schema s) = true := by
  induction n using Nat.strong_induction_on with
  | _ n ih =>
    have Helems : ∀ xs : List JVal, sizeA xs + 1 ≤ n →
        clean_elems (sanitize_list xs) = true := by
      intro xs
      induction xs with
      | nil =>
        intro _
        rw [sanitize_list.eq_1, clean_elems.eq_1]
      | cons x rest ihx =>
        intro hxs
        have hrest : clean_elems (sanitize_list rest) = true := by
          apply ihx
          simp only [sizeA] at hxs
          have := sizeJ_pos x
          omega
        cases x with
        | obj es =>
          have hsub : sizeJ (JVal.obj es) < n := by
            simp only [sizeA] at hxs
            omega
          have hcl := ih _ hsub (JVal.obj es) le_rfl
          simp only [sanitize_schema, clean_schema] at hcl
          simp only [sanitize_list, sanitize_schema, clean_elems, Bool.and_eq_true]
          exact ⟨hcl, hrest⟩
        | null => simp only [sanitize_list, clean_elems, Bool.true_and]; exact hrest
        | bool b => simp only [sanitize_list, clean_elems, Bool.true_and]; exact hrest
        | num m => simp only [sanitize_list, clean_elems, Bool.true_and]; exact hrest
        | str t => simp only [sanitize_list, clean_elems, Bool.true_and]; exact hrest
        | arr ys => simp only [sanitize_list, clean_elems, Bool.true_and]; exact hrest
    have Hentries : ∀ kvs : List (String × JVal), ∀ res,
        sizeO kvs + 1 ≤ n → clean_entries res = true →
        clean_entries (sanitize_entries kvs res) = true := by
      intro kvs
      induction kvs with
      | nil =>
        intro res _ hres
        rw [sanitize_entries.eq_1]
        exact hres
      | cons kv rest ihk =>
        obtain ⟨k, v⟩ := kv
        intro res hsz hres
        have hbound : sizeO rest + 1 ≤ n := by
          simp only [sizeO] at hsz
          have := sizeJ_pos v
          omega
        have hacc : ∀ u w : JVal, clean_value w = true →
            clean_entries
              (if REJECTED_SCHEMA_KEYS.contains k then
                (if k == "const" then dset res "enum" (.arr [u]) else res)
              else if COMPOSITION_SCHEMA_KEYS.contains k then res
              else dset res k w) = true := by
          intro u w hw
          by_cases hrej : REJECTED_SCHEMA_KEYS.contains k = true
          · rw [if_pos hrej]
            by_cases hconst : (k == "const") = true
            · rw [if_pos hconst]
              exact clean_entries_dset res "enum" (.arr [u]) hres (by decide) (by simp)
            · rw [if_neg hconst]
              exact hres
          · rw [if_neg hrej]
            by_cases hcomp : COMPOSITION_SCHEMA_KEYS.contains k = true
            · rw [if_pos hcomp]
              exact hres
            · rw [if_neg hcomp]
              exact clean_entries_dset res k w hres (by simpa using hrej)
                (by simp [hw])
        cases v with
        | obj es =>
          have hsub : sizeJ (JVal.obj es) < n := by
            simp only [sizeO] at hsz
            omega
          have hcl := ih _ hsub (JVal.obj es) le_rfl
          simp only [sanitize_schema, clean_schema] at hcl
          simp only [sanitize_entries, sanitize_schema]
          apply ihk _ hbound
          exact hacc (.obj es) _ (by simpa [clean_value] using hcl)
        | arr xs =>
          have hxs : sizeA xs + 1 ≤ n := by
            simp only [sizeO, sizeJ] at hsz
            omega
          simp only [sanitize_entries]
          apply ihk _ hbound
          exact hacc (.arr xs) _ (by simpa [clean_value] using Helems xs hxs)
        | null =>
          simp only [sanitize_entries]
          apply ihk _ hbound
          exact hacc .null _ (by simp [clean_value])
        | bool b =>
          simp only [sanitize_entries]
          apply ihk _ hbound
          exact hacc (.bool b) _ (by simp [clean_value])
        | num m =>
          simp only [sanitize_entries]
          apply ihk _ hbound
          exact hacc (.num m) _ (by simp [clean_value])
        | str t =>
          simp only [sanitize_entries]
          apply ihk _ hbound
          exact hacc (.str t) _ (by simp [clean_value])
    intro s hs
    cases s with
    | obj kvs =>
      simp only [sanitize_schema, clean_schema]
      apply Hentries
      · have h1 := sizeO_resolve_composition_le kvs
        simp only [sizeJ] at hs
        omega
      · rw [clean_entries.eq_1]
    | null => simp [sanitize_schema, clean_schema]
    | bool b => simp [sanitize_schema, clean_schema]
    | num m => simp [sanitize_schema, clean_schema]
    | str t => simp [sanitize_schema, clean_schema]
    | arr xs => simp [sanitize_schema, clean_schema]

/-! ### Lookup characterization of the allOf merge -/

/-- The value the allOf merge loop stores for key `k` when the current
merged dict is `m` and the sub-schema provides `v`. -/
def merge_step_value (m : List (String × JVal)) (k : String) (v : JVal) : JVal :=
  if k == "properties" && dhas m k then union_vals (dget m k) v
  else if k == "required" && dhas m k then concat_required (dget m k) v
  else v

theorem merge_sub_step_eq_dset (m : List (String × JVal)) (kv : String × JVal) :
    merge_sub_step m kv = dset m kv.1 (merge_step_value m kv.1 kv.2) := by
  obtain ⟨k, v⟩ := kv
  simp only [merge_sub_step, merge_step_value]
  by_cases h1 : (k == "properties" && dhas m k) = true
  · rw [if_pos h1, if_pos h1]
  · rw [if_neg h1, if_neg h1]
    by_cases h2 : (k == "required" && dhas m k) = true
    · rw [if_pos h2, if_pos h2]
    · rw [if_neg h2, if_neg h2]

theorem merge_step_value_congr (m m' : List (String × JVal)) (k : String) (v : JVal)
    (h1 : dhas m' k = dhas m k) (h2 : dget m' k = dget m k) :
    merge_step_value m' k v = merge_step_value m k v := by
  simp only [merge_step_value, h1, h2]

theorem dlookup_none_of_not_mem_keys {kvs : List (String × JVal)} {k : String}
    (h : k ∉ kvs.map Prod.fst) : dlookup kvs k = none := by
  induction kvs with
  | nil => rfl
  | cons hd tl ih =>
    obtain ⟨k', v⟩ := hd
    simp only [List.map_cons, List.mem_cons, not_or] at h
    simp only [dlookup]
    have : (k' == k) = false := by
      rw [beq_eq_false_iff_ne]
      exact fun he => h.1 he.symm
    rw [this]
    simp only [Bool.false_eq_true, ite_false]
    exact ih h.2

theorem mem_keys_of_dlookup {kvs : List (String × JVal)} {k : String} {v : JVal}
    (h : dlookup kvs k = some v) : k ∈ kvs.map Prod.fst := by
  induction kvs with
  | nil => simp [dlookup] at h
  | cons hd tl ih =>
    obtain ⟨k', w⟩ := hd
    simp only [dlookup] at h
    by_cases hk : (k' == k) = true
    · simp [List.map_cons, List.mem_cons]
      left
      exact (beq_iff_eq.mp hk).symm
    · rw [if_neg hk] at h
      simp only [List.map_cons, List.mem_cons]
      exact Or.inr (ih h)

theorem dget_dset_ne (m : List (String × JVal)) {k k' : String} (v : JVal)
    (h : k' ≠ k) : dget (dset m k' v) k = dget m k := by
  simp only [dget, dlookup_dset_ne m v h]

theorem foldl_merge_sub_step_lookup (es : List (String × JVal))
    (hnd : (es.map Prod.fst).Nodup) (m : List (String × JVal)) (k : String) :
    dlookup (es.foldl merge_sub_step m) k =
      match dlookup es k with
      | none => dlookup m k
      | some v => some (merge_step_value m k v) := by
  induction es generalizing m with
  | nil => simp [dlookup]
  | cons hd rest ih =>
    obtain ⟨k', v'⟩ := hd
    simp only [List.map_cons, List.nodup_cons] at hnd
    simp only [List.foldl_cons]
    rw [merge_sub_step_eq_dset]
    by_cases hk : (k' == k) = true
    · have hk' : k' = k := beq_iff_eq.mp hk
      subst hk'
      have hnone : dlookup rest k' = none :=
        dlookup_none_of_not_mem_keys hnd.1
      rw [ih hnd.2]
      simp only [hnone]
      simp only [dlookup, hk]
      rw [dlookup_dset_self]
      simp
    · have hne : k' ≠ k := fun he => hk (beq_iff_eq.mpr he)
      rw [ih hnd.2]
      simp only [dlookup, hk]
      cases hrest : dlookup rest k with
      | none =>
        simp only [Bool.false_eq_true, ite_false]
        exact dlookup_dset_ne m _ hne
      | some w =>
        simp only [Bool.false_eq_true, ite_false]
        have h1 : dhas (dset m k' (merge_step_value m k' v')) k = dhas m k :=
          dhas_dset_ne m _ hne
        have h2 : dget (dset m k' (merge_step_value m k' v')) k = dget m k :=
          dget_dset_ne m _ hne
        exact congrArg some (merge_step_value_congr m _ k w h1 h2)

theorem dhas_filter_false (kvs : List (String × JVal)) (p : String × JVal → Bool)
    (k : String) (h : dhas kvs k = false) : dhas (kvs.filter p) k = false := by
  induction kvs with
  | nil => simp [dhas]
  | cons hd tl ih =>
    obtain ⟨k', v⟩ := hd
    simp only [dhas, List.any_cons, Bool.or_eq_false_iff] at h
    by_cases hp : p (k', v)
    · simp only [List.filter_cons, hp, if_true, dhas, List.any_cons,
        Bool.or_eq_false_iff]
      exact ⟨h.1, ih h.2⟩
    · simp only [List.filter_cons, hp, Bool.false_eq_true, ite_false]
      exact ih h.2

/-! ### First-occurrence dedup has no duplicates -/

theorem dedup_first_subset {y : JVal} : ∀ xs : List JVal,
    y ∈ dedup_first xs → y ∈ xs := by
  intro xs
  induction xs with
  | nil => simp [dedup_first]
  | cons x rest ih =>
    intro hy
    simp only [dedup_first, List.mem_cons] at hy
    rcases hy with h | h
    · exact h ▸ List.mem_cons_self _ _
    · exact List.mem_cons_of_mem _ (ih (List.mem_of_mem_filter h))

theorem dedup_first_pairwise : ∀ xs : List JVal,
    List.Pairwise (fun a b => (b == a) = false) (dedup_first xs) := by
  intro xs
  induction xs with
  | nil => simp [dedup_first]
  | cons x rest ih =>
    simp only [dedup_first]
    refine List.pairwise_cons.mpr ⟨?_, ih.filter _⟩
    intro y hy
    have := List.of_mem_filter hy
    simpa using this

/-! ### const → enum rewriting -/

theorem sanitize_entries_enum_skip :
    ∀ (kvs res : List (String × JVal)),
      (∀ kv ∈ kvs, kv.1 ≠ "const" ∧ kv.1 ≠ "enum") →
      dlookup (sanitize_entries kvs res) "enum" = dlookup res "enum" := by
  intro kvs
  induction kvs with
  | nil =>
    intro res _
    rw [sanitize_entries.eq_1]
  | cons kv rest ih =>
    obtain ⟨k, v⟩ := kv
    intro res hk
    have hhd := hk (k, v) (List.mem_cons_self _ _)
    have htl : ∀ kv ∈ rest, kv.1 ≠ "const" ∧ kv.1 ≠ "enum" := by
      intro kv hm
      exact hk kv (List.mem_cons_of_mem _ hm)
    have hpres : ∀ w : JVal,
        dlookup
          (if REJECTED_SCHEMA_KEYS.contains k then
            (if k == "const" then dset res "enum" (.arr [v]) else res)
          else if COMPOSITION_SCHEMA_KEYS.contains k then res
          else dset res k w) "enum" = dlookup res "enum" := by
      intro w
      have hconst : (k == "const") = false := beq_eq_false_iff_ne.mpr hhd.1
      by_cases hrej : REJECTED_SCHEMA_KEYS.contains k = true
      · rw [if_pos hrej, hconst]
        simp
      · rw [if_neg hrej]
        by_cases hcomp : COMPOSITION_SCHEMA_KEYS.contains k = true
        · rw [if_pos hcomp]
        · rw [if_neg hcomp]
          exact dlookup_dset_ne res w hhd.2
    cases v with
    | obj es =>
      simp only [sanitize_entries]
      rw [ih _ htl, hpres]
    | arr xs =>
      simp only [sanitize_entries]
      rw [ih _ htl, hpres]
    | null =>
      simp only [sanitize_entries]
      rw [ih _ htl, hpres]
    | bool b =>
      simp only [sanitize_entries]
      rw [ih _ htl, hpres]
    | num m =>
      simp only [sanitize_entries]
      rw [ih _ htl, hpres]
    | str t =>
      simp only [sanitize_entries]
      rw [ih _ htl, hpres]

theorem sanitize_entries_const_enum :
    ∀ (kvs : List (String × JVal)) (v : JVal) (res : List (String × JVal)),
      ("const", v) ∈ kvs →
      (kvs.filter (fun kv => kv.1 == "const")).length ≤ 1 →
      (∀ kv ∈ kvs, kv.1 ≠ "enum") →
      dlookup (sanitize_entries kvs res) "enum" = some (.arr [v]) := by
  intro kvs
  induction kvs with
  | nil =>
    intro v res hmem
    simp at hmem
  | cons kv rest ih =>
    obtain ⟨k, w⟩ := kv
    intro v res hmem hcount henum
    have htl_enum : ∀ kv ∈ rest, kv.1 ≠ "enum" := by
      intro kv hm
      exact henum kv (List.mem_cons_of_mem _ hm)
    by_cases hk : (k == "const") = true
    · have hkc : k = "const" := beq_iff_eq.mp hk
      subst hkc
      have hrestc : ∀ kv ∈ rest, kv.1 ≠ "const" := by
        intro kv hm hc
        have : (rest.filter (fun kv => kv.1 == "const")).length ≥ 1 := by
          have : kv ∈ rest.filter (fun kv => kv.1 == "const") :=
            List.mem_filter.mpr ⟨hm, by simp [hc]⟩
          exact List.length_pos.mpr (List.ne_nil_of_mem this)
        simp only [List.filter_cons, beq_self_eq_true, if_true, List.length_cons] at hcount
        omega
      have hwv : w = v := by
        rcases List.mem_cons.mp hmem with h | h
        · injection h with _ h2
          exact h2.symm
        · exact absurd rfl (hrestc _ h)
      subst hwv
      have hskip : ∀ res2, dlookup (sanitize_entries rest res2) "enum" =
          dlookup res2 "enum" := by
        intro res2
        apply sanitize_entries_enum_skip
        intro kv hm
        exact ⟨hrestc kv hm, htl_enum kv hm⟩
      have hfin : ∀ res2 : List (String × JVal),
          dlookup (sanitize_entries rest (dset res2 "enum" (.arr [w]))) "enum" =
            some (.arr [w]) := by
        intro res2
        rw [hskip, dlookup_dset_self]
      cases w with
      | obj es =>
        simp only [sanitize_entries]
        rw [if_pos (by decide), if_pos (by decide)]
        exact hfin res
      | arr xs =>
        simp only [sanitize_entries]
        rw [if_pos (by decide), if_pos (by decide)]
        exact hfin res
      | null =>
        simp only [sanitize_entries]
        rw [if_pos (by decide), if_pos (by decide)]
        exact hfin res
      | bool b =>
        simp only [sanitize_entries]
        rw [if_pos (by decide), if_pos (by decide)]
        exact hfin res
      | num m =>
        simp only [sanitize_entries]
        rw [if_pos (by decide), if_pos (by decide)]
        exact hfin res
      | str t =>
        simp only [sanitize_entries]
        rw [if_pos (by decide), if_pos (by decide)]
        exact hfin res
    · have hmem' : ("const", v) ∈ rest := by
        rcases List.mem_cons.mp hmem with h | h
        · exfalso
          apply hk
          injection h with h1 _
          simp [h1]
        · exact h
      have hcount' : (rest.filter (fun kv => kv.1 == "const")).length ≤ 1 := by
        simp only [List.filter_cons] at hcount
        by_cases hc : ((k, w).1 == "const") = true
        · exact absurd hc hk
        · rw [if_neg (by simpa using hc)] at hcount
          exact hcount
      have happ : ∀ res2, dlookup (sanitize_entries rest res2) "enum" =
          some (.arr [v]) := fun res2 => ih v res2 hmem' hcount' htl_enum
      cases w with
      | obj es => simp only [sanitize_entries]; exact happ _
      | arr xs => simp only [sanitize_entries]; exact happ _
      | null => simp only [sanitize_entries]; exact happ _
      | bool b => simp only [sanitize_entries]; exact happ _
      | num m => simp only [sanitize_entries]; exact happ _
      | str t => simp only [sanitize_entries]; exact happ _

/-! ### anyOf / oneOf unwrapping -/

theorem choose_branch_single (x : JVal) : choose_branch [x] = x := by
  unfold choose_branch
  by_cases h : is_non_null_schema x = true
  · simp [List.filter, h]
  · simp [List.filter, h]

theorem dget_of_dlookup {kvs : List (String × JVal)} {k : String} {v : JVal}
    (h : dlookup kvs k = some v) : dget kvs k = v := by
  simp [dget, h]

theorem resolve_composition_single_anyOf (kvs : List (String × JVal))
    (c : List (String × JVal))
    (hallOf : dhas kvs "allOf" = false)
    (hanyOf : dlookup kvs "anyOf" = some (.arr [.obj c])) :
    resolve_composition kvs =
      dmerge (kvs.filter (fun kv => !(COMPOSITION_SCHEMA_KEYS.contains kv.1))) c := by
  unfold resolve_composition
  rw [hallOf]
  simp only [Bool.false_eq_true, ite_false]
  have hres : resolve_one_of_key kvs "anyOf" =
      some (dmerge (kvs.filter (fun kv => !(COMPOSITION_SCHEMA_KEYS.contains kv.1))) c) := by
    unfold resolve_one_of_key
    rw [dhas_of_dlookup hanyOf, if_pos rfl, dget_of_dlookup hanyOf]
    simp [choose_branch_single]
  rw [hres]

theorem resolve_composition_multi_anyOf (kvs : List (String × JVal))
    (items : List JVal) (c : List (String × JVal)) (cs : List JVal)
    (hallOf : dhas kvs "allOf" = false)
    (hanyOf : dlookup kvs "anyOf" = some (.arr items))
    (hfilter : items.filter is_non_null_schema = .obj c :: cs) :
    resolve_composition kvs =
      dmerge (kvs.filter (fun kv => !(COMPOSITION_SCHEMA_KEYS.contains kv.1))) c := by
  have hne : items ≠ [] := by
    intro h
    subst h
    simp at hfilter
  unfold resolve_composition
  rw [hallOf]
  simp only [Bool.false_eq_true, ite_false]
  have hchoose : choose_branch items = .obj c := by
    unfold choose_branch
    rw [hfilter]
  have hres : resolve_one_of_key kvs "anyOf" =
      some (dmerge (kvs.filter (fun kv => !(COMPOSITION_SCHEMA_KEYS.contains kv.1))) c) := by
    unfold resolve_one_of_key
    rw [dhas_of_dlookup hanyOf, if_pos rfl, dget_of_dlookup hanyOf]
    have hempty : items.isEmpty = false := by
      simpa [List.isEmpty_iff] using hne
    simp [hempty, hchoose]
  rw [hres]

/-! ### Claim C7: sanitize_schema -/

mutual

/-- Does the key `k` occur, at any nesting depth, in a JSON value? -/
def contains_key_deep (k : String) : JVal → Bool
  | .obj kvs => contains_key_entries k kvs
  | .arr xs => contains_key_elems k xs
  | .null => false
  | .bool _ => false
  | .num _ => false
  | .str _ => false

/-- Key occurrence inside an object body. -/
def contains_key_entries (k : String) : List (String × JVal) → Bool
  | [] => false
  | (k', v) :: rest =>
    k' == k || contains_key_deep k v || contains_key_entries k rest

/-- Key occurrence inside an array body. -/
def contains_key_elems (k : String) : List JVal → Bool
  | [] => false
  | x :: xs => contains_key_deep k x || contains_key_elems k xs

end

/-- C7 counterexample: the claim says the result of `sanitize_schema`
contains none of the rejected keys at any nesting depth, but a `const`
value is carried verbatim into `enum:[v]`, so a `title` key nested inside
the const value survives in the output. -/
theorem C7_sanitize_schema_counterexample :
    sanitize_schema (.obj [("const", .obj [("title", .num 1)])]) =
      .obj [("enum", .arr [.obj [("title", .num 1)]])] ∧
    contains_key_deep "title"
      (sanitize_schema (.obj [("const", .obj [("title", .num 1)])])) = true := by
  have hval : sanitize_schema (.obj [("const", .obj [("title", .num 1)])]) =
      .obj [("enum", .arr [.obj [("title", .num 1)]])] := by
    simp [sanitize_schema, sanitize_entries, resolve_composition, resolve_one_of_key,
      dhas, dget, dlookup, dset, REJECTED_SCHEMA_KEYS, COMPOSITION_SCHEMA_KEYS]
  refine ⟨hval, ?_⟩
  rw [hval]
  rfl

/-- C7 (amended): `sanitize_schema` strips every rejected key from every
dict it rebuilds — the top-level object, dict values of non-`enum` keys and
dict elements of array values, recursively — while `enum` values produced
by the `const` rewrite are carried verbatim; a `const` key (unique, with no
sibling `enum` after composition resolution) is rewritten to `enum:[v]`;
`allOf` merges sub-schemas with `properties` unioned and `required`
concatenated without duplicates; a single-item `anyOf` is unwrapped keeping
sibling keys; a multi-item `anyOf` is replaced by its first branch whose
`type` is not `"null"`, keeping sibling keys. -/
theorem C7_sanitize_schema_amended :
    (∀ s : JVal, clean_schema (sanitize_schema s) = true)
    ∧ (∀ (kvs : List (String × JVal)) (v : JVal),
        ("const", v) ∈ resolve_composition kvs →
        ((resolve_composition kvs).filter (fun kv => kv.1 == "const")).length ≤ 1 →
        (∀ kv ∈ resolve_composition kvs, kv.1 ≠ "enum") →
        ∃ es, sanitize_schema (.obj kvs) = .obj es ∧
          dlookup es "enum" = some (.arr [v]))
    ∧ (∀ (kvs e1 e2 p1 p2 : List (String × JVal)) (q1 q2 : List JVal),
        dlookup kvs "allOf" = some (.arr [.obj e1, .obj e2]) →
        dhas kvs "properties" = false →
        dhas kvs "required" = false →
        (e1.map Prod.fst).Nodup →
        (e2.map Prod.fst).Nodup →
        dlookup e1 "properties" = some (.obj p1) →
        dlookup e2 "properties" = some (.obj p2) →
        dlookup e1 "required" = some (.arr q1) →
        dlookup e2 "required" = some (.arr q2) →
        dlookup (resolve_composition kvs) "properties" = some (.obj (dmerge p1 p2))
        ∧ dlookup (resolve_composition kvs) "required" =
            some (.arr (dedup_first (q1 ++ q2)))
        ∧ List.Pairwise (fun a b => (b == a) = false) (dedup_first (q1 ++ q2)))
    ∧ (∀ (kvs c : List (String × JVal)),
        dhas kvs "allOf" = false →
        dlookup kvs "anyOf" = some (.arr [.obj c]) →
        resolve_composition kvs =
          dmerge (kvs.filter (fun kv => !(COMPOSITION_SCHEMA_KEYS.contains kv.1))) c)
    ∧ (∀ (kvs : List (String × JVal)) (items : List JVal)
        (c : List (String × JVal)) (cs : List JVal),
        dhas kvs "allOf" = false →
        dlookup kvs "anyOf" = some (.arr items) →
        items.filter is_non_null_schema = .obj c :: cs →
        resolve_composition kvs =
          dmerge (kvs.filter (fun kv => !(COMPOSITION_SCHEMA_KEYS.contains kv.1))) c) := by
  refine ⟨?_, ?_, ?_, ?_, ?_⟩
  · intro s
    exact clean_sanitize (sizeJ s) s le_rfl
  · intro kvs v hmem hcount henum
    refine ⟨sanitize_entries (resolve_composition kvs) [], ?_, ?_⟩
    · simp only [sanitize_schema]
    · exact sanitize_entries_const_enum _ v [] hmem hcount henum
  · intro kvs e1 e2 p1 p2 q1 q2 hallOf hprops hreq hnd1 hnd2 hp1 hp2 hq1 hq2
    have hres : resolve_composition kvs =
        List.foldl merge_sub_step
          (List.foldl merge_sub_step
            (kvs.filter (fun kv => !(kv.1 == "allOf"))) e1) e2 := by
      unfold resolve_composition
      rw [dhas_of_dlookup hallOf, if_pos rfl, dget_of_dlookup hallOf]
      simp [merge_all_of]
    have hprops0 : dhas (kvs.filter (fun kv => !(kv.1 == "allOf"))) "properties" = false :=
      dhas_filter_false kvs _ _ hprops
    have hreq0 : dhas (kvs.filter (fun kv => !(kv.1 == "allOf"))) "required" = false :=
      dhas_filter_false kvs _ _ hreq
    have hm1props :
        dlookup (List.foldl merge_sub_step
          (kvs.filter (fun kv => !(kv.1 == "allOf"))) e1) "properties" =
          some (.obj p1) := by
      rw [foldl_merge_sub_step_lookup e1 hnd1, hp1]
      simp [merge_step_value, hprops0]
    have hm1req :
        dlookup (List.foldl merge_sub_step
          (kvs.filter (fun kv => !(kv.1 == "allOf"))) e1) "required" =
          some (.arr q1) := by
      rw [foldl_merge_sub_step_lookup e1 hnd1, hq1]
      simp [merge_step_value, hreq0]
    have hm2props :
        dlookup (List.foldl merge_sub_step
          (List.foldl merge_sub_step
            (kvs.filter (fun kv => !(kv.1 == "allOf"))) e1) e2) "properties" =
          some (.obj (dmerge p1 p2)) := by
      rw [foldl_merge_sub_step_lookup e2 hnd2, hp2]
      have h1 := dhas_of_dlookup hm1props
      have h2 := dget_of_dlookup hm1props
      simp [merge_step_value, h1, h2, union_vals]
    have hm2req :
        dlookup (List.foldl merge_sub_step
          (List.foldl merge_sub_step
            (kvs.filter (fun kv => !(kv.1 == "allOf"))) e1) e2) "required" =
          some (.arr (dedup_first (q1 ++ q2))) := by
      rw [foldl_merge_sub_step_lookup e2 hnd2, hq2]
      have h1 := dhas_of_dlookup hm1req
      have h2 := dget_of_dlookup hm1req
      simp [merge_step_value, h1, h2, concat_required]
    rw [hres]
    exact ⟨hm2props, hm2req, dedup_first_pairwise _⟩
  · exact resolve_composition_single_anyOf
  · exact resolve_composition_multi_anyOf

/-- C7 witness: the amended sanitizer properties instantiated on concrete
schemas (a const rewrite, a two-branch allOf merge, a single-item anyOf and
a multi-item anyOf with a null first branch). -/
theorem C7_sanitize_schema_witness :
    (∃ es, sanitize_schema (.obj [("const", .num 2)]) = .obj es ∧
        dlookup es "enum" = some (.arr [.num 2]))
    ∧ dlookup (resolve_composition
        [("allOf", .arr [.obj [("properties", .obj [("a", .str "A")]),
                               ("required", .arr [.str "a"])],
                         .obj [("properties", .obj [("b", .str "B")]),
                               ("required", .arr [.str "a", .str "b"])]])])
        "properties" = some (.obj (dmerge [("a", .str "A")] [("b", .str "B")]))
    ∧ resolve_composition [("anyOf", .arr [.obj [("type", .str "string")]])] =
        dmerge ([("anyOf", JVal.arr [.obj [("type", .str "string")]])].filter
          (fun kv => !(COMPOSITION_SCHEMA_KEYS.contains kv.1)))
          [("type", .str "string")]
    ∧ resolve_composition
        [("anyOf", .arr [.obj [("type", .str "null")],
                         .obj [("type", .str "string")]])] =
        dmerge ([("anyOf", JVal.arr [.obj [("type", .str "null")],
                                     .obj [("type", .str "string")]])].filter
          (fun kv => !(COMPOSITION_SCHEMA_KEYS.contains kv.1)))
          [("type", .str "string")] := by
  refine ⟨?_, ?_, ?_, ?_⟩
  · apply C7_sanitize_schema_amended.2.1
    · show ("const", JVal.num 2) ∈ [("const", JVal.num 2)]
      exact List.mem_singleton.mpr rfl
    · show ([("const", JVal.num 2)].filter (fun kv => kv.1 == "const")).length ≤ 1
      simp
    · show ∀ kv ∈ [("const", JVal.num 2)], kv.1 ≠ "enum"
      intro kv hkv
      rw [List.mem_singleton.mp hkv]
      simp
  · exact (C7_sanitize_schema_amended.2.2.1
      [("allOf", .arr [.obj [("properties", .obj [("a", .str "A")]),
                             ("required", .arr [.str "a"])],
                       .obj [("properties", .obj [("b", .str "B")]),
                             ("required", .arr [.str "a", .str "b"])]])]
      [("properties", .obj [("a", .str "A")]), ("required", .arr [.str "a"])]
      [("properties", .obj [("b", .str "B")]), ("required", .arr [.str "a", .str "b"])]
      [("a", .str "A")] [("b", .str "B")] [.str "a"] [.str "a", .str "b"]
      rfl rfl rfl (by simp) (by simp) rfl rfl rfl rfl).1
  · exact C7_sanitize_schema_amended.2.2.2.1
      [("anyOf", .arr [.obj [("type", .str "string")]])]
      [("type", .str "string")] rfl rfl
  · exact C7_sanitize_schema_amended.2.2.2.2
      [("anyOf", .arr [.obj [("type", .str "null")],
                       .obj [("type", .str "string")]])]
      [.obj [("type", .str "null")], .obj [("type", .str "string")]]
      [("type", .str "string")] [] rfl rfl rfl

/-! ### OpenAI → Gemini message conversion (transform.py, messages_to_gemini) -/

/-- One item of a multimodal OpenAI content list: a dict with
`type == "text"`, a bare string, or anything else (skipped). -/
inductive OItem where
  | textItem (s : String)
  | strItem (s : String)
  | otherItem

/-- OpenAI message content: absent/None, a string, or a multimodal list. -/
inductive OContent where
  | none
  | str (s : String)
  | list (items : List OItem)

/-- Python truthiness of a content value (`if content:`). -/
def OContent.truthy : OContent → Bool
  | .none => false
  | .str s => !(s == "")
  | .list items => !items.isEmpty

/-- Arguments of a tool call: a pre-parsed JSON value or a raw string
that is passed through `json.loads`. -/
inductive ArgVal where
  | parsed (v : JVal)
  | raw (s : String)

/-- One entry of `msg["tool_calls"]`. -/
structure OToolCall where
  id : Option String
  name : String
  arguments : ArgVal

/-- An OpenAI-format message. -/
structure OMsg where
  role : String
  content : OContent := .none
  tool_calls : List OToolCall := []
  name : Option String := Option.none
  tool_call_id : Option String := Option.none

/-- A Gemini content part. `text` keeps the stored payload verbatim
(`\x7b"text": content\x7d`); `functionResponse` keeps `content or ""`. -/
inductive GPart where
  | text (payload : OContent)
  | functionCall (id name : String) (args : JVal)
  | functionResponse (id name : String) (result : OContent)

/-- One Gemini `contents` entry. -/
structure GEntry where
  role : String
  parts : List GPart

/-- Placeholder for the random `tc_<uuid>` fallback id; the claims do not
depend on id values. -/
def GEN_TC_ID : String := "tc_generated"

/-- Resolve tool-call arguments: raw strings go through `json.loads`
(modelled by the oracle `jp`), falling back to `\x7b"raw": s\x7d`. -/
def parse_args (jp : String → Option JVal) : ArgVal → JVal
  | .parsed v => v
  | .raw s =>
    match jp s with
    | some v => v
    | Option.none => .obj [("raw", .str s)]

/-- Role remap: `assistant → model`, everything else (non-system) → `user`. -/
def gemini_role (role : String) : String :=
  if role == "assistant" then "model" else "user"

/-- The parts built for one non-system message. -/
def msg_parts (jp : String → Option JVal) (msg : OMsg) : List GPart :=
  if msg.role == "assistant" && !msg.tool_calls.isEmpty then
    (if msg.content.truthy then [GPart.text msg.content] else []) ++
      msg.tool_calls.map (fun tc =>
        GPart.functionCall (tc.id.getD GEN_TC_ID) tc.name (parse_args jp tc.arguments))
  else if msg.role == "tool" then
    [GPart.functionResponse (msg.tool_call_id.getD GEN_TC_ID)
      (msg.name.getD (msg.tool_call_id.getD ""))
      (if msg.content.truthy then msg.content else .str "")]
  else if msg.content.truthy then
    match msg.content with
    | .list items =>
      items.filterMap (fun it =>
        match it with
        | .textItem s => some (GPart.text (.str s))
        | .strItem s => some (GPart.text (.str s))
        | .otherItem => Option.none)
    | c => [GPart.text c]
  else []

/-- The pre-merge `contents` list: system messages are skipped, and a
message whose parts list is empty is dropped. -/
def raw_contents (jp : String → Option JVal) : List OMsg → List GEntry
  | [] => []
  | msg :: rest =>
    if msg.role == "system" then raw_contents jp rest
    else
      let parts := msg_parts jp msg
      if parts.isEmpty then raw_contents jp rest
      else ⟨gemini_role msg.role, parts⟩ :: raw_contents jp rest

/-- Collected system parts (`\x7b"text": content\x7d` for each truthy
system content, in order). -/
def system_parts : List OMsg → List GPart
  | [] => []
  | msg :: rest =>
    if msg.role == "system" && msg.content.truthy then
      GPart.text msg.content :: system_parts rest
    else system_parts rest

/-- The synthetic separator `\x7brole: model, parts: [\x7btext: "OK."\x7d]\x7d`. -/
def ok_entry : GEntry := ⟨"model", [GPart.text (.str "OK.")]⟩

/-- Is a part a functionResponse part? -/
def is_fr_part : GPart → Bool
  | .functionResponse _ _ _ => true
  | .text _ => false
  | .functionCall _ _ _ => false

/-- Is a part a text part? -/
def is_text_part : GPart → Bool
  | .text _ => true
  | .functionCall _ _ _ => false
  | .functionResponse _ _ _ => false

/-- Does an entry carry any functionResponse part? -/
def entry_has_fr (e : GEntry) : Bool := e.parts.any is_fr_part

/-- One step of the merge loop over `contents`, on the reversed
accumulator (`merged[-1]` is the head). -/
def merge_step : List GEntry → GEntry → List GEntry
  | [], e => [e]
  | last :: rest, e =>
    if last.role == e.role then
      if entry_has_fr last != entry_has_fr e then
        e :: ok_entry :: last :: rest
      else
        ⟨last.role, last.parts ++ e.parts⟩ :: rest
    else e :: last :: rest

/-- Merge consecutive same-role entries (transform.py merge loop). -/
def merge_contents (l : List GEntry) : List GEntry :=
  (l.foldl merge_step []).reverse

/-- Convert OpenAI-format messages to Gemini `(contents, systemInstruction)`
(transform.py, `messages_to_gemini`); `jp` is the `json.loads` oracle used
for string tool-call arguments. -/
def messages_to_gemini (jp : String → Option JVal) (msgs : List OMsg) :
    List GEntry × Option GEntry :=
  (merge_contents (raw_contents jp msgs),
   if (system_parts msgs).isEmpty then Option.none
   else some ⟨"user", system_parts msgs⟩)

/-- Structural invariant of entries fed to (and preserved by) the merge:
never both text and functionResponse parts, and functionResponse parts only
on user-role entries. -/
def good_entry (e : GEntry) : Prop :=
  ¬(e.parts.any is_text_part = true ∧ e.parts.any is_fr_part = true)
  ∧ (e.parts.any is_fr_part = true → e.role = "user")

/-- Item conversion inside a multimodal content list. -/
def item_part : OItem → Option GPart
  | .textItem s => some (GPart.text (.str s))
  | .strItem s => some (GPart.text (.str s))
  | .otherItem => Option.none

theorem item_part_no_fr (items : List OItem) :
    (items.filterMap item_part).any is_fr_part = false := by
  induction items with
  | nil => simp
  | cons it rest ih =>
    cases it <;> simp [List.filterMap_cons, item_part, is_fr_part, ih]

theorem assistant_parts_no_fr (b : Bool) (ct : OContent)
    (l : List OToolCall) (jp : String → Option JVal) :
    ((if b then [GPart.text ct] else []) ++
      l.map (fun tc =>
        GPart.functionCall (tc.id.getD GEN_TC_ID) tc.name
          (parse_args jp tc.arguments))).any is_fr_part = false := by
  cases b <;>
    simp [is_fr_part, Function.comp, List.any_map, List.any_eq_true]

theorem msg_parts_shape (jp : String → Option JVal) (msg : OMsg) :
    (msg_parts jp msg).any is_fr_part = false ∨
    ((msg.role == "tool") = true ∧
      ∃ i n r, msg_parts jp msg = [GPart.functionResponse i n r]) := by
  unfold msg_parts
  by_cases h1 : (msg.role == "assistant" && !msg.tool_calls.isEmpty) = true
  · left
    rw [if_pos h1]
    by_cases hc : msg.content.truthy = true
    · rw [if_pos hc]
      exact assistant_parts_no_fr true msg.content msg.tool_calls jp
    · rw [if_neg hc]
      exact assistant_parts_no_fr false msg.content msg.tool_calls jp
  · rw [if_neg h1]
    by_cases h2 : (msg.role == "tool") = true
    · right
      rw [if_pos h2]
      exact ⟨h2, _, _, _, rfl⟩
    · left
      rw [if_neg h2]
      by_cases h3 : msg.content.truthy = true
      · rw [if_pos h3]
        cases hc : msg.content with
        | list items => exact item_part_no_fr items
        | none => simp [is_fr_part]
        | str s => simp [is_fr_part]
      · rw [if_neg h3]
        simp

theorem msg_entry_good (jp : String → Option JVal) (msg : OMsg) :
    good_entry ⟨gemini_role msg.role, msg_parts jp msg⟩ := by
  rcases msg_parts_shape jp msg with h | ⟨htool, i, n, r, hparts⟩
  · constructor
    · intro hmix
      rw [h] at hmix
      exact Bool.false_ne_true hmix.2
    · intro hfr
      rw [h] at hfr
      exact absurd hfr Bool.false_ne_true
  · constructor
    · intro hmix
      have := hmix.1
      rw [hparts] at this
      simp [is_text_part] at this
    · intro _
      have hrole : msg.role = "tool" := beq_iff_eq.mp htool
      simp [gemini_role, hrole]

theorem raw_contents_good (jp : String → Option JVal) :
    ∀ msgs : List OMsg, ∀ e ∈ raw_contents jp msgs, good_entry e := by
  intro msgs
  induction msgs with
  | nil => intro e he; simp [raw_contents] at he
  | cons msg rest ih =>
    intro e he
    rw [raw_contents] at he
    by_cases hsys : (msg.role == "system") = true
    · rw [if_pos hsys] at he
      exact ih e he
    · rw [if_neg hsys] at he
      simp only at he
      by_cases hemp : (msg_parts jp msg).isEmpty = true
      · rw [if_pos hemp] at he
        exact ih e he
      · rw [if_neg hemp] at he
        rcases List.mem_cons.mp he with h | h
        · subst h
          exact msg_entry_good jp msg
        · exact ih e h

theorem ok_entry_good : good_entry ok_entry := by
  constructor
  · intro hmix
    have := hmix.2
    simp [ok_entry, entry_has_fr, is_fr_part] at this
  · intro hfr
    simp [ok_entry, entry_has_fr, is_fr_part] at hfr

theorem merge_step_inv (acc : List GEntry) (e : GEntry)
    (hchain : List.Chain' (fun a b => a.role ≠ b.role) acc)
    (hgood : ∀ x ∈ acc, good_entry x) (he : good_entry e) :
    List.Chain' (fun a b => a.role ≠ b.role) (merge_step acc e)
    ∧ ∀ x ∈ merge_step acc e, good_entry x := by
  cases acc with
  | nil =>
    refine ⟨List.chain'_singleton e, ?_⟩
    intro x hx
    rw [List.mem_singleton.mp hx]
    exact he
  | cons last rest =>
    have hlast : good_entry last := hgood last (List.mem_cons_self _ _)
    have hrest : ∀ x ∈ rest, good_entry x := fun x hx =>
      hgood x (List.mem_cons_of_mem _ hx)
    rw [merge_step]
    by_cases hrole : (last.role == e.role) = true
    · rw [if_pos hrole]
      have hroleq : last.role = e.role := beq_iff_eq.mp hrole
      by_cases hfr : (entry_has_fr last != entry_has_fr e) = true
      · rw [if_pos hfr]
        have hfrne : entry_has_fr last ≠ entry_has_fr e := bne_iff_ne.mp hfr
        have huser : e.role = "user" := by
          cases h1 : entry_has_fr e with
          | true => exact he.2 h1
          | false =>
            have h2 : entry_has_fr last = true := by
              cases h3 : entry_has_fr last with
              | true => rfl
              | false => rw [h3, h1] at hfrne; exact absurd rfl hfrne
            rw [← hroleq]
            exact hlast.2 h2
        refine ⟨?_, ?_⟩
        · refine List.chain'_cons.mpr ⟨?_, List.chain'_cons.mpr ⟨?_, hchain⟩⟩
          · rw [huser]
            simp [ok_entry]
          · show ok_entry.role ≠ last.role
            rw [hroleq, huser]
            simp [ok_entry]
        · intro x hx
          rcases List.mem_cons.mp hx with h | hx
          · rw [h]; exact he
          rcases List.mem_cons.mp hx with h | hx
          · rw [h]; exact ok_entry_good
          · exact hgood x hx
      · rw [if_neg hfr]
        have hfreq : entry_has_fr last = entry_has_fr e := by
          by_contra hne
          exact hfr (bne_iff_ne.mpr hne)
        have hmgood : good_entry ⟨last.role, last.parts ++ e.parts⟩ := by
          constructor
          · intro hmix
            have hfrm := hmix.2
            simp only [List.any_append, Bool.or_eq_true] at hfrm
            have hfrboth : entry_has_fr last = true := by
              rcases hfrm with h | h
              · exact h
              · rw [hfreq]; exact h
            have hfre : entry_has_fr e = true := hfreq ▸ hfrboth
            have htm := hmix.1
            simp only [List.any_append, Bool.or_eq_true] at htm
            rcases htm with h | h
            · exact hlast.1 ⟨h, hfrboth⟩
            · exact he.1 ⟨h, hfre⟩
          · intro hfrm
            simp only [List.any_append, Bool.or_eq_true] at hfrm
            rcases hfrm with h | h
            · exact hlast.2 h
            · rw [hroleq]
              exact he.2 h
        refine ⟨?_, ?_⟩
        · rcases List.chain'_cons'.mp hchain with ⟨hhd, htl⟩
          exact List.chain'_cons'.mpr ⟨hhd, htl⟩
        · intro x hx
          rcases List.mem_cons.mp hx with h | hx
          · rw [h]; exact hmgood
          · exact hrest x hx
    · rw [if_neg hrole]
      refine ⟨?_, ?_⟩
      · refine List.chain'_cons.mpr ⟨?_, hchain⟩
        intro hr
        exact hrole (beq_iff_eq.mpr hr.symm)
      · intro x hx
        rcases List.mem_cons.mp hx with h | hx
        · rw [h]; exact he
        · exact hgood x hx

theorem merge_contents_inv (l : List GEntry) (hgood : ∀ e ∈ l, good_entry e) :
    List.Chain' (fun a b => a.role ≠ b.role) (merge_contents l)
    ∧ ∀ e ∈ merge_contents l, good_entry e := by
  have H : ∀ acc,
      List.Chain' (fun a b => a.role ≠ b.role) acc →
      (∀ x ∈ acc, good_entry x) →
      List.Chain' (fun a b => a.role ≠ b.role) (l.foldl merge_step acc)
      ∧ ∀ x ∈ l.foldl merge_step acc, good_entry x := by
    induction l with
    | nil =>
      intro acc h1 h2
      exact ⟨h1, h2⟩
    | cons e rest ih =>
      intro acc h1 h2
      have hee : good_entry e := hgood e (List.mem_cons_self _ _)
      have hrest : ∀ x ∈ rest, good_entry x := fun x hx =>
        hgood x (List.mem_cons_of_mem _ hx)
      have hstep := merge_step_inv acc e h1 h2 hee
      simp only [List.foldl_cons]
      exact ih hrest (merge_step acc e) hstep.1 hstep.2
  have hfold := H [] List.chain'_nil (by intro x hx; simp at hx)
  constructor
  · rw [merge_contents, List.chain'_reverse]
    exact List.Chain'.imp (fun a b h => Ne.symm h) hfold.1
  · intro e he
    rw [merge_contents, List.mem_reverse] at he
    exact hfold.2 e he

/-- C1: for every list of OpenAI-format messages, the `contents` list built
by `messages_to_gemini` never has two consecutive entries with equal role
and never mixes a functionResponse part with a text part inside one entry;
and whenever two adjacent same-role entries differ in whether they carry
functionResponse parts, the merge inserts the synthetic
`\x7brole: model, parts: [\x7btext: "OK."\x7d]\x7d` separator instead of merging. -/
theorem C1_messages_to_gemini_invariants (jp : String → Option JVal)
    (msgs : List OMsg) :
    List.Chain' (fun a b => a.role ≠ b.role) (messages_to_gemini jp msgs).1
    ∧ (∀ e ∈ (messages_to_gemini jp msgs).1,
        ¬(e.parts.any is_text_part = true ∧ e.parts.any is_fr_part = true))
    ∧ ∀ (last : GEntry) (rest : List GEntry) (e : GEntry),
        last.role = e.role → entry_has_fr last ≠ entry_has_fr e →
        merge_step (last :: rest) e = e :: ok_entry :: last :: rest := by
  have hinv := merge_contents_inv (raw_contents jp msgs)
    (raw_contents_good jp msgs)
  refine ⟨hinv.1, ?_, ?_⟩
  · intro e he
    exact (hinv.2 e he).1
  · intro last rest e hrole hfr
    rw [merge_step, if_pos (beq_iff_eq.mpr hrole), if_pos (bne_iff_ne.mpr hfr)]

/-- C1 witness: a user text turn followed by a same-role functionResponse
turn gets the `OK.` separator inserted rather than being merged. -/
theorem C1_messages_to_gemini_witness :
    merge_step [⟨"user", [GPart.text (.str "hi")]⟩]
        ⟨"user", [GPart.functionResponse "id1" "tool1" (.str "ok")]⟩ =
      [⟨"user", [GPart.functionResponse "id1" "tool1" (.str "ok")]⟩, ok_entry,
        ⟨"user", [GPart.text (.str "hi")]⟩] :=
  (C1_messages_to_gemini_invariants (fun _ => Option.none) []).2.2
    ⟨"user", [GPart.text (.str "hi")]⟩ []
    ⟨"user", [GPart.functionResponse "id1" "tool1" (.str "ok")]⟩
    rfl (by decide)

/-! ### Retry / failover (provider.py _request_with_retry, constants.py) -/

def API_ENDPOINT_DAILY : String := "https://daily-cloudcode-pa.sandbox.googleapis.com"

def API_ENDPOINT_AUTOPUSH : String :=
  "https://autopush-cloudcode-pa.sandbox.googleapis.com"

def API_ENDPOINT_PROD : String := "https://cloudcode-pa.googleapis.com"

def DEFAULT_API_ENDPOINT : String := API_ENDPOINT_PROD

/-- Endpoint fallback order: daily, autopush, prod. -/
def API_ENDPOINT_FALLBACKS : List String :=
  [API_ENDPOINT_DAILY, API_ENDPOINT_AUTOPUSH, API_ENDPOINT_PROD]

def RETRYABLE_STATUS_CODES : List Nat := [429, 500, 503]

def FALLBACK_STATUS_CODES : List Nat := [403, 404]

def MAX_RETRIES : Nat := 3

def RETRY_BASE_DELAY : ℚ := 1

/-- `_get_endpoints`: a known endpoint comes first followed by the other
known endpoints in order; a custom endpoint has no fallbacks. -/
def get_endpoints (endpoint : String) : List String :=
  if API_ENDPOINT_FALLBACKS.contains endpoint then
    endpoint :: API_ENDPOINT_FALLBACKS.filter (fun ep => !(ep == endpoint))
  else [endpoint]

/-- An HTTP response as the retry loop sees it: status code plus the parsed
Retry-After header (`none` when the header is absent or unparseable). -/
structure Resp where
  status : Nat
  retryAfter : Option ℚ

/-- Outcome of one POST: a response, or a connect error / connect timeout. -/
inductive Outcome where
  | resp (r : Resp)
  | connError

/-- Errors the loop stores in `last_error`. -/
inductive ReqErr where
  | httpStatus (code : Nat)
  | connErr

/-- `_get_retry_delay`: `min(Retry-After, 60)` when parseable, else
`RETRY_BASE_DELAY * 2 ** attempt`. -/
def get_retry_delay (r : Resp) (attempt : Nat) : ℚ :=
  match r.retryAfter with
  | some ra => min ra 60
  | Option.none => RETRY_BASE_DELAY * 2 ^ attempt

/-- How one endpoint's attempt loop ends: a 2xx success, fall-through to
the next endpoint carrying the updated `last_error`, or an immediate raise
from `raise_for_status` on a non-retryable, non-fallback, non-2xx status. -/
inductive EpStep where
  | success (r : Resp)
  | nextEndpoint (lastErr : Option ReqErr)
  | raised (code : Nat)

/-- The `for attempt in range(MAX_RETRIES)` loop on one endpoint. `out`
maps attempt index to the POST outcome; returns the attempt indices POSTed,
the total time slept, and the loop's end. Sleeping happens only on a
retryable status when `attempt < MAX_RETRIES - 1`. -/
def attempt_loop (out : Nat → Outcome) (lastErr : Option ReqErr) :
    Nat → Nat → List Nat × ℚ × EpStep
  | _, 0 => ([], 0, .nextEndpoint lastErr)
  | attempt, fuel + 1 =>
    match out attempt with
    | .connError => ([attempt], 0, .nextEndpoint (some .connErr))
    | .resp r =>
      if RETRYABLE_STATUS_CODES.contains r.status then
        if attempt < MAX_RETRIES - 1 then
          let next := attempt_loop out (some (.httpStatus r.status)) (attempt + 1) fuel
          (attempt :: next.1, get_retry_delay r attempt + next.2.1, next.2.2)
        else ([attempt], 0, .nextEndpoint (some (.httpStatus r.status)))
      else if FALLBACK_STATUS_CODES.contains r.status then
        ([attempt], 0, .nextEndpoint (some (.httpStatus r.status)))
      else if 200 ≤ r.status && r.status < 300 then
        ([attempt], 0, .success r)
      else ([attempt], 0, .raised r.status)

/-- Final result of `_request_with_retry`: a 2xx response, an immediate
raise, `raise last_error` after exhausting all endpoints, or the
RuntimeError fallback when no error was recorded. -/
inductive ReqResult where
  | ok (r : Resp)
  | raisedStatus (code : Nat)
  | exhausted (e : ReqErr)
  | exhaustedNoError

/-- The `for endpoint in endpoints` loop. `script ep a` is the outcome of
attempt `a` of a POST to endpoint `ep`; returns the POST log
`(endpoint, attempt)` in order, the total sleep, and the result. -/
def endpoints_loop (script : String → Nat → Outcome) :
    List String → Option ReqErr → List (String × Nat) × ℚ × ReqResult
  | [], lastErr =>
    ([], 0,
      match lastErr with
      | some e => .exhausted e
      | Option.none => .exhaustedNoError)
  | ep :: rest, lastErr =>
    let this_ep := attempt_loop (script ep) lastErr 0 MAX_RETRIES
    match this_ep.2.2 with
    | .success r => (this_ep.1.map (fun a => (ep, a)), this_ep.2.1, .ok r)
    | .raised code => (this_ep.1.map (fun a => (ep, a)), this_ep.2.1, .raisedStatus code)
    | .nextEndpoint e =>
      let later := endpoints_loop script rest e
      (this_ep.1.map (fun a => (ep, a)) ++ later.1, this_ep.2.1 + later.2.1, later.2.2)

/-- `_request_with_retry` over an endpoint list, starting with no
`last_error`. -/
def request_with_retry (script : String → Nat → Outcome)
    (endpoints : List String) : List (String × Nat) × ℚ × ReqResult :=
  endpoints_loop script endpoints Option.none

theorem retryable_not_2xx {s : Nat} (h : 200 ≤ s ∧ s < 300) :
    RETRYABLE_STATUS_CODES.contains s = false ∧
    FALLBACK_STATUS_CODES.contains s = false := by
  constructor <;>
  · simp [RETRYABLE_STATUS_CODES, FALLBACK_STATUS_CODES]
    omega

theorem map_add_range_succ (a n : Nat) :
    (List.range (n + 1)).map (fun x => a + x) =
      a :: (List.range n).map (fun x => a + 1 + x) := by
  rw [List.range_succ_eq_map]
  simp only [List.map_cons, Nat.add_zero, List.map_map]
  congr 1
  apply List.map_congr_left
  intro i _
  simp only [Function.comp]
  omega

theorem sum_delay_range_succ (rs : Nat → Resp) (a k : Nat) :
    ((List.range (k + 1)).map (fun i => get_retry_delay (rs (a + i)) (a + i))).sum =
      get_retry_delay (rs a) a +
        ((List.range k).map (fun i => get_retry_delay (rs (a + 1 + i)) (a + 1 + i))).sum := by
  rw [List.range_succ_eq_map]
  simp only [List.map_cons, Nat.add_zero, List.map_map, List.sum_cons]
  congr 2
  apply List.map_congr_left
  intro i _
  simp only [Function.comp]
  have heq : a + (i + 1) = a + 1 + i := by omega
  rw [heq]

theorem attempt_loop_retry_then_success (out : Nat → Outcome) (rs : Nat → Resp)
    (r : Resp) :
    ∀ (k a fuel : Nat) (le : Option ReqErr),
      a + fuel = MAX_RETRIES →
      a + k ≤ MAX_RETRIES - 1 →
      (∀ i, i < k → out (a + i) = .resp (rs (a + i)) ∧
        RETRYABLE_STATUS_CODES.contains (rs (a + i)).status = true) →
      out (a + k) = .resp r →
      (200 ≤ r.status ∧ r.status < 300) →
      attempt_loop out le a fuel =
        ((List.range (k + 1)).map (a + ·),
         ((List.range k).map (fun i => get_retry_delay (rs (a + i)) (a + i))).sum,
         .success r) := by
  intro k
  induction k with
  | zero =>
    intro a fuel le hfuel hbound hretry hsucc h2xx
    have hfpos : 0 < fuel := by
      simp [MAX_RETRIES] at hfuel hbound
      omega
    obtain ⟨f, rfl⟩ : ∃ f, fuel = f + 1 := ⟨fuel - 1, by omega⟩
    rw [attempt_loop]
    simp only [Nat.add_zero] at hsucc
    rw [hsucc]
    have hnr := retryable_not_2xx h2xx
    have h2 : (200 ≤ r.status && r.status < 300) = true := by
      simp [h2xx.1, h2xx.2]
    simp only [hnr.1, hnr.2, h2, Bool.false_eq_true, ite_false, if_true]
    simp [List.range_succ]
  | succ k ih =>
    intro a fuel le hfuel hbound hretry hsucc h2xx
    have hfpos : 0 < fuel := by
      simp [MAX_RETRIES] at hfuel hbound
      omega
    obtain ⟨f, rfl⟩ : ∃ f, fuel = f + 1 := ⟨fuel - 1, by omega⟩
    rw [attempt_loop]
    have h0 := hretry 0 (Nat.succ_pos k)
    simp only [Nat.add_zero] at h0
    rw [h0.1]
    have hlt : a < MAX_RETRIES - 1 := by
      simp [MAX_RETRIES] at hbound ⊢
      omega
    simp only [h0.2, if_true]
    rw [if_pos hlt]
    have hrec := ih (a + 1) f (some (.httpStatus (rs a).status))
      (by omega)
      (by omega)
      (by
        intro i hi
        have := hretry (i + 1) (by omega)
        constructor
        · have heq : a + (i + 1) = a + 1 + i := by omega
          rw [← heq]
          exact this.1
        · have heq : a + (i + 1) = a + 1 + i := by omega
          rw [← heq]
          exact this.2)
      (by
        have heq : a + (k + 1) = a + 1 + k := by omega
        rw [← heq]
        exact hsucc)
      h2xx
    rw [hrec]
    simp only
    rw [map_add_range_succ a (k + 1), sum_delay_range_succ rs a k]

/-- C2: if the first endpoint answers the first `k` POSTs (k ≤ MAX_RETRIES−1)
with a retryable status (429, 500 or 503) and POST `k+1` with a 2xx
response, `_request_with_retry` returns that response after exactly `k+1`
POSTs to that endpoint, and the total time slept is the sum over
`i in 0..k−1` of `RETRY_BASE_DELAY·2^i`, except that an attempt whose
response carries a parseable Retry-After header sleeps `min(Retry-After, 60)`
instead. -/
theorem C2_request_with_retry_backoff (e : String) (script : String → Nat → Outcome)
    (rs : Nat → Resp) (r : Resp) (k : Nat)
    (hk : k ≤ MAX_RETRIES - 1)
    (hretry : ∀ i, i < k → script e i = .resp (rs i) ∧
      ((rs i).status = 429 ∨ (rs i).status = 500 ∨ (rs i).status = 503))
    (hsucc : script e k = .resp r)
    (h2xx : 200 ≤ r.status ∧ r.status < 300) :
    request_with_retry script (get_endpoints e) =
      ((List.range (k + 1)).map (fun a => (e, a)),
       ((List.range k).map (fun i =>
         match (rs i).retryAfter with
         | some ra => min ra 60
         | Option.none => RETRY_BASE_DELAY * 2 ^ i)).sum,
       .ok r) := by
  obtain ⟨tail, htail⟩ : ∃ tail, get_endpoints e = e :: tail := by
    unfold get_endpoints
    by_cases h : API_ENDPOINT_FALLBACKS.contains e = true
    · exact ⟨_, by rw [if_pos h]⟩
    · exact ⟨[], by rw [if_neg h]⟩
  have hal := attempt_loop_retry_then_success (script e) rs r k 0 MAX_RETRIES
    Option.none
    (by simp)
    (by simpa using hk)
    (by
      intro i hi
      have h := hretry i hi
      refine ⟨by simpa using h.1, ?_⟩
      simp only [Nat.zero_add]
      rcases h.2 with h2 | h2 | h2 <;> simp [RETRYABLE_STATUS_CODES, h2])
    (by simpa using hsucc)
    h2xx
  rw [htail, request_with_retry, endpoints_loop, hal]
  simp only [List.map_map]
  refine congrArg₂ _ ?_ (congrArg₂ _ ?_ rfl)
  · apply List.map_congr_left
    intro i _
    simp [Function.comp]
  · apply congrArg
    apply List.map_congr_left
    intro i _
    simp [get_retry_delay]

/-- C2 witness: on the default endpoint, two retryable responses (429 with
Retry-After 5, then 503 without a header) followed by a 200 produce that
200 after three POSTs with a total sleep of `min(5,60) + 1·2¹ = 7`. -/
theorem C2_request_with_retry_witness :
    request_with_retry
      (fun _ a =>
        if a = 0 then .resp ⟨429, some 5⟩
        else if a = 1 then .resp ⟨503, Option.none⟩
        else .resp ⟨200, Option.none⟩)
      (get_endpoints DEFAULT_API_ENDPOINT) =
      ([(DEFAULT_API_ENDPOINT, 0), (DEFAULT_API_ENDPOINT, 1),
        (DEFAULT_API_ENDPOINT, 2)], 7, .ok ⟨200, Option.none⟩) := by
  have h := C2_request_with_retry_backoff DEFAULT_API_ENDPOINT
    (fun _ a =>
      if a = 0 then .resp ⟨429, some 5⟩
      else if a = 1 then .resp ⟨503, Option.none⟩
      else .resp ⟨200, Option.none⟩)
    (fun i => if i = 0 then ⟨429, some 5⟩ else ⟨503, Option.none⟩)
    ⟨200, Option.none⟩ 2
    (by norm_num [MAX_RETRIES])
    (by
      intro i hi
      interval_cases i
      · exact ⟨rfl, by norm_num⟩
      · exact ⟨rfl, by norm_num⟩)
    rfl
    (by norm_num)
  rw [h]
  refine congrArg₂ _ ?_ (congrArg₂ _ ?_ rfl)
  · rfl
  · show (min (5 : ℚ) 60 + (RETRY_BASE_DELAY * 2 ^ 1 + 0)) = 7
    norm_num [RETRY_BASE_DELAY]

theorem attempt_loop_fallback_first (out : Nat → Outcome) (R0 : Resp)
    (le : Option ReqErr) (h : out 0 = .resp R0)
    (hst : R0.status = 403 ∨ R0.status = 404) :
    attempt_loop out le 0 MAX_RETRIES =
      ([0], 0, .nextEndpoint (some (.httpStatus R0.status))) := by
  show attempt_loop out le 0 (2 + 1) = _
  rw [attempt_loop, h]
  have h1 : RETRYABLE_STATUS_CODES.contains R0.status = false := by
    rcases hst with h | h <;> simp [RETRYABLE_STATUS_CODES, h]
  have h2 : FALLBACK_STATUS_CODES.contains R0.status = true := by
    rcases hst with h | h <;> simp [FALLBACK_STATUS_CODES, h]
  simp only [h1, h2, Bool.false_eq_true, ite_false, if_true]

theorem endpoints_loop_all_fallback (script : String → Nat → Outcome)
    (R : String → Nat → Resp)
    (hresp : ∀ ep a, script ep a = .resp (R ep a))
    (hst : ∀ ep a, (R ep a).status = 403 ∨ (R ep a).status = 404) :
    ∀ (eps : List String) (le : Option ReqErr),
      (endpoints_loop script eps le).1 = eps.map (fun ep => (ep, 0))
      ∧ (endpoints_loop script eps le).2.1 = 0
      ∧ ∀ epl, eps.getLast? = some epl →
          (endpoints_loop script eps le).2.2 =
            .exhausted (.httpStatus ((R epl 0).status)) := by
  intro eps
  induction eps with
  | nil =>
    intro le
    refine ⟨rfl, rfl, ?_⟩
    intro epl h
    simp at h
  | cons ep rest ih =>
    intro le
    have hfirst := attempt_loop_fallback_first (script ep) (R ep 0) le
      (hresp ep 0) (hst ep 0)
    rw [endpoints_loop, hfirst]
    simp only [List.map_cons, List.map_nil]
    have ihr := ih (some (.httpStatus ((R ep 0).status)))
    refine ⟨?_, ?_, ?_⟩
    · simp only [List.singleton_append]
      rw [ihr.1]
    · rw [ihr.2.1]
      norm_num
    · intro epl hlast
      cases rest with
      | nil =>
        simp only [List.getLast?_singleton] at hlast
        injection hlast with hlast
        subst hlast
        rfl
      | cons ep2 rest2 =>
        have : (ep :: ep2 :: rest2).getLast? = (ep2 :: rest2).getLast? := by
          simp [List.getLast?_cons_cons]
        rw [this] at hlast
        exact ihr.2.2 epl hlast

/-- C3: when every endpoint answers every POST with 403 or 404,
`_request_with_retry` performs exactly one POST per endpoint, in endpoint
order, sleeps not at all, and raises the recorded last error (an HTTP
status error from the last endpoint); the endpoint list starts with the
configured endpoint, a custom endpoint has no fallbacks, and a known
endpoint is followed by the other known endpoints. -/
theorem C3_request_with_retry_exhaustion (e : String)
    (script : String → Nat → Outcome) (R : String → Nat → Resp)
    (hresp : ∀ ep a, script ep a = .resp (R ep a))
    (hst : ∀ ep a, (R ep a).status = 403 ∨ (R ep a).status = 404) :
    (request_with_retry script (get_endpoints e)).1 =
      (get_endpoints e).map (fun ep => (ep, 0))
    ∧ (request_with_retry script (get_endpoints e)).1.length =
      (get_endpoints e).length
    ∧ (request_with_retry script (get_endpoints e)).2.1 = 0
    ∧ (∀ epl, (get_endpoints e).getLast? = some epl →
        (request_with_retry script (get_endpoints e)).2.2 =
          .exhausted (.httpStatus ((R epl 0).status)))
    ∧ (get_endpoints e).headD "" = e
    ∧ (API_ENDPOINT_FALLBACKS.contains e = false → get_endpoints e = [e])
    ∧ (API_ENDPOINT_FALLBACKS.contains e = true →
        (get_endpoints e).length = API_ENDPOINT_FALLBACKS.length) := by
  have hmain := endpoints_loop_all_fallback script R hresp hst (get_endpoints e)
    Option.none
  refine ⟨hmain.1, ?_, hmain.2.1, hmain.2.2, ?_, ?_, ?_⟩
  · have h1 : (request_with_retry script (get_endpoints e)).1 =
        (get_endpoints e).map (fun ep => (ep, 0)) := hmain.1
    rw [h1, List.length_map]
  · unfold get_endpoints
    by_cases h : API_ENDPOINT_FALLBACKS.contains e = true
    · rw [if_pos h]
      rfl
    · rw [if_neg h]
      rfl
  · intro h
    unfold get_endpoints
    rw [if_neg (by rw [h]; simp)]
  · intro h
    have hmem : e = API_ENDPOINT_DAILY ∨ e = API_ENDPOINT_AUTOPUSH ∨
        e = API_ENDPOINT_PROD := by
      simpa [API_ENDPOINT_FALLBACKS, List.contains] using h
    unfold get_endpoints
    rw [if_pos h]
    rcases hmem with hm | hm | hm <;> subst hm <;> rfl

/-- C3 witness: with every endpoint answering 404, the provider POSTs once
to each of the three endpoints (daily first when configured as primary) and
raises the 404 status error without sleeping. -/
theorem C3_request_with_retry_witness :
    (request_with_retry (fun _ _ => .resp ⟨404, Option.none⟩)
        (get_endpoints API_ENDPOINT_DAILY)).1 =
      (get_endpoints API_ENDPOINT_DAILY).map (fun ep => (ep, 0))
    ∧ (request_with_retry (fun _ _ => .resp ⟨404, Option.none⟩)
        (get_endpoints API_ENDPOINT_DAILY)).2.1 = 0
    ∧ (request_with_retry (fun _ _ => .resp ⟨404, Option.none⟩)
        (get_endpoints API_ENDPOINT_DAILY)).2.2 =
      .exhausted (.httpStatus 404)
    ∧ (get_endpoints API_ENDPOINT_DAILY).length = 3 := by
  have h := C3_request_with_retry_exhaustion API_ENDPOINT_DAILY
    (fun _ _ => .resp ⟨404, Option.none⟩) (fun _ _ => ⟨404, Option.none⟩)
    (fun _ _ => rfl) (fun _ _ => Or.inr rfl)
  refine ⟨h.1, h.2.2.1, ?_, ?_⟩
  · exact h.2.2.2.1 API_ENDPOINT_PROD rfl
  · rw [h.2.2.2.2.2.2 rfl]
    rfl

/-! ### chat error handling (provider.py, chat) -/

/-- The fields of LLMResponse that the error-handling claim concerns. -/
structure LLMResponse where
  content : Option String
  finish_reason : String

/-- Output of `parse_gemini_response` as far as `chat` forwards it. -/
structure ParsedResponse where
  content : Option String
  finish_reason : String

/-- An exception raised by one of chat's stages: `httpx.HTTPStatusError`
with the response status and body, or any other exception with its text. -/
inductive ChatExc where
  | httpStatusError (status : Nat) (body : String)
  | otherError (msg : String)

/-- The fallible collaborators inside chat's `try` block, modelled as
oracles: `get_valid_token`, `_ensure_project_id`, `_build_request_body`,
`_request_with_retry`, and `response.json()`. -/
structure ChatEnv where
  getValidToken : Except ChatExc String
  ensureProjectId : Except ChatExc String
  buildRequestBody : Except ChatExc String
  requestOutcome : Except ChatExc String
  responseJson : Except ChatExc JVal

/-- The message of the LLMResponse built by chat's `except` clauses. -/
def exc_message : ChatExc → String
  | .httpStatusError status body =>
    "Antigravity API error " ++ toString status ++ ": " ++ body
  | .otherError msg => "Antigravity error: " ++ msg

/-- The error-flagged LLMResponse chat returns instead of raising. -/
def error_response (e : ChatExc) : LLMResponse :=
  ⟨some (exc_message e), "error"⟩

/-- `chat`: run the stages in order; the first failure is converted to an
error-flagged LLMResponse, a full success forwards the parsed response
(`parseGemini` models the total `parse_gemini_response`). -/
def chat (env : ChatEnv) (parseGemini : JVal → ParsedResponse) : LLMResponse :=
  match env.getValidToken with
  | .error e => error_response e
  | .ok _token =>
    match env.ensureProjectId with
    | .error e => error_response e
    | .ok _project =>
      match env.buildRequestBody with
      | .error e => error_response e
      | .ok _body =>
        match env.requestOutcome with
        | .error e => error_response e
        | .ok _resp =>
          match env.responseJson with
          | .error e => error_response e
          | .ok data =>
            ⟨(parseGemini data).content, (parseGemini data).finish_reason⟩

/-- Did a stage raise? -/
def stage_failed {α : Type} : Except ChatExc α → Bool
  | .error _ => true
  | .ok _ => false

/-- Did any of chat's stages raise? -/
def chat_failed (env : ChatEnv) : Bool :=
  stage_failed env.getValidToken || stage_failed env.ensureProjectId ||
    stage_failed env.buildRequestBody || stage_failed env.requestOutcome ||
    stage_failed env.responseJson

/-- C4: chat never propagates a stage failure: whenever authentication,
project discovery, request building, the HTTP exchange, or response JSON
decoding fails, chat returns an LLMResponse with finish_reason "error"
whose content is the formatted exception message; when every stage
succeeds it forwards the parsed response. -/
theorem C4_chat_error_handling (env : ChatEnv)
    (parseGemini : JVal → ParsedResponse) :
    (chat_failed env = true →
      (chat env parseGemini).finish_reason = "error" ∧
      ∃ e, (chat env parseGemini).content = some (exc_message e))
    ∧ (∀ data, chat_failed env = false → env.responseJson = .ok data →
        chat env parseGemini =
          ⟨(parseGemini data).content, (parseGemini data).finish_reason⟩) := by
  obtain ⟨tok, proj, body, req, json⟩ := env
  constructor
  · intro hfail
    cases tok with
    | error e => exact ⟨rfl, e, rfl⟩
    | ok t =>
      cases proj with
      | error e => exact ⟨rfl, e, rfl⟩
      | ok p =>
        cases body with
        | error e => exact ⟨rfl, e, rfl⟩
        | ok b =>
          cases req with
          | error e => exact ⟨rfl, e, rfl⟩
          | ok r =>
            cases json with
            | error e => exact ⟨rfl, e, rfl⟩
            | ok d => simp [chat_failed, stage_failed] at hfail
  · intro data hok hjson
    cases tok with
    | error e => simp [chat_failed, stage_failed] at hok
    | ok t =>
      cases proj with
      | error e => simp [chat_failed, stage_failed] at hok
      | ok p =>
        cases body with
        | error e => simp [chat_failed, stage_failed] at hok
        | ok b =>
          cases req with
          | error e => simp [chat_failed, stage_failed] at hok
          | ok r =>
            cases json with
            | error e => simp [chat_failed, stage_failed] at hok
            | ok d =>
              simp only [Except.ok.injEq] at hjson
              subst hjson
              rfl

/-- C4 witness: a failing HTTP exchange (404 after exhausting endpoints)
turns into an error-flagged LLMResponse with the formatted message. -/
theorem C4_chat_error_handling_witness :
    (chat ⟨.ok "tok", .ok "proj", .ok "body",
        .error (.httpStatusError 404 "not found"), .ok .null⟩
      (fun _ => ⟨Option.none, "stop"⟩)).finish_reason = "error" ∧
    ∃ e, (chat ⟨.ok "tok", .ok "proj", .ok "body",
        .error (.httpStatusError 404 "not found"), .ok .null⟩
      (fun _ => ⟨Option.none, "stop"⟩)).content = some (exc_message e) :=
  (C4_chat_error_handling
    ⟨.ok "tok", .ok "proj", .ok "body",
      .error (.httpStatusError 404 "not found"), .ok .null⟩
    (fun _ => ⟨Option.none, "stop"⟩)).1 rfl

/-! ### Credential store (auth.py) -/

/-- Stored OAuth credentials for a single account. -/
structure AntigravityCredentials where
  access_token : String
  refresh_token : String
  expires_at : ℚ
  email : String

/-- `is_expired`: `now ≥ expires_at − 300` (5-minute buffer). -/
def is_expired (now : ℚ) (c : AntigravityCredentials) : Bool :=
  decide (now ≥ c.expires_at - 300)

/-- The manager's account map and active email. -/
structure AuthState where
  accounts : List (String × AntigravityCredentials)
  active_email : String

/-- Association-list lookup for accounts. -/
def alookup : List (String × AntigravityCredentials) → String →
    Option AntigravityCredentials
  | [], _ => Option.none
  | (k, c) :: rest, k' => if k == k' then some c else alookup rest k'

/-- In-place update of an account entry. -/
def aset : List (String × AntigravityCredentials) → String →
    AntigravityCredentials → List (String × AntigravityCredentials)
  | [], k, c => [(k, c)]
  | (k', c') :: rest, k, c =>
    if k' == k then (k, c) :: rest else (k', c') :: aset rest k c

/-- `active_credentials`: the active account's credentials, if any. -/
def active_credentials (st : AuthState) : Option AntigravityCredentials :=
  alookup st.accounts st.active_email

/-- Successful token-endpoint response: new access token, optional
`expires_in` (default 3600) and optional new refresh token. -/
structure RefreshData where
  access_token : String
  expires_in : Option ℚ
  refresh_token : Option String

/-- Errors get_valid_token can raise: the two RuntimeErrors that tell the
user to run `nanobot auth login`, and an HTTP error from the refresh POST. -/
inductive AuthError where
  | notAuthenticated
  | noRefreshToken
  | httpError (status : Nat)

/-- Errors that demand a (re-)login — the spec's `AuthRequired` kind. Both
RuntimeError messages instruct the user to run `nanobot auth login`. -/
def is_auth_required : AuthError → Bool
  | .notAuthenticated => true
  | .noRefreshToken => true
  | .httpError _ => false

/-- `_refresh` on the active credential `c`: fails without a refresh token,
propagates an HTTP failure of the token POST, else updates the credential
in place (the source mutates the same object `get_valid_token` holds). -/
def refresh_cred (st : AuthState) (c : AntigravityCredentials) (now : ℚ)
    (outcome : Except Nat RefreshData) :
    Except AuthError (AntigravityCredentials × AuthState) :=
  if c.refresh_token == "" then .error .noRefreshToken
  else
    match outcome with
    | .error status => .error (.httpError status)
    | .ok data =>
      let c2 : AntigravityCredentials :=
        { c with
          access_token := data.access_token,
          expires_at := now + data.expires_in.getD 3600,
          refresh_token := data.refresh_token.getD c.refresh_token }
      .ok (c2, { st with accounts := aset st.accounts st.active_email c2 })

/-- `get_valid_token`: fail without an active credential; refresh when the
credential is expired; return the (post-refresh) access token. The third
component records whether a refresh was performed. -/
def get_valid_token (st : AuthState) (now : ℚ) (outcome : Except Nat RefreshData) :
    Except AuthError (String × AuthState × Bool) :=
  match active_credentials st with
  | Option.none => .error .notAuthenticated
  | some c =>
    if is_expired now c then
      match refresh_cred st c now outcome with
      | .error e => .error e
      | .ok (c2, st2) => .ok (c2.access_token, st2, true)
    else .ok (c.access_token, st, false)

/-- C5 counterexample: an active but expired credential with an empty
refresh token makes `get_valid_token` raise the auth-required
"No refresh token" error even though an active credential exists — so
"raises an authentication-required error exactly when there is no active
credential" fails. -/
theorem C5_get_valid_token_counterexample :
    get_valid_token ⟨[("u@x", ⟨"tokA", "", 0, "u@x"⟩)], "u@x"⟩ 1000
        (.ok ⟨"tokB", some 3600, Option.none⟩) = .error .noRefreshToken
    ∧ is_auth_required .noRefreshToken = true
    ∧ active_credentials ⟨[("u@x", ⟨"tokA", "", 0, "u@x"⟩)], "u@x"⟩ ≠
        Option.none := by
  have hexp : is_expired 1000 ⟨"tokA", "", 0, "u@x"⟩ = true := by
    simp only [is_expired, decide_eq_true_eq]
    norm_num
  refine ⟨?_, rfl, ?_⟩
  · simp [get_valid_token, active_credentials, alookup, hexp, refresh_cred]
  · simp [active_credentials, alookup]

/-- C5 (amended): `get_valid_token` raises an auth-required error exactly
when there is no active credential, or the active credential is expired
with an empty refresh token; with an unexpired active credential it returns
that token without refreshing; with an expired credential and a refresh
token it refreshes — returning the post-refresh access token on success and
propagating the HTTP error (not auth-required) on failure. -/
theorem C5_get_valid_token_amended :
    (∀ (st : AuthState) (now : ℚ) (outcome : Except Nat RefreshData),
      (∃ e, get_valid_token st now outcome = .error e ∧ is_auth_required e = true) ↔
        (active_credentials st = Option.none ∨
          ∃ c, active_credentials st = some c ∧ is_expired now c = true ∧
            c.refresh_token = ""))
    ∧ (∀ (st : AuthState) (now : ℚ) (outcome : Except Nat RefreshData)
        (c : AntigravityCredentials), active_credentials st = some c →
        is_expired now c = false →
        get_valid_token st now outcome = .ok (c.access_token, st, false))
    ∧ (∀ (st : AuthState) (now : ℚ) (c : AntigravityCredentials)
        (data : RefreshData), active_credentials st = some c →
        is_expired now c = true → c.refresh_token ≠ "" →
        ∃ st2, get_valid_token st now (.ok data) =
          .ok (data.access_token, st2, true))
    ∧ (∀ (st : AuthState) (now : ℚ) (c : AntigravityCredentials)
        (status : Nat), active_credentials st = some c →
        is_expired now c = true → c.refresh_token ≠ "" →
        get_valid_token st now (.error status) = .error (.httpError status) ∧
          is_auth_required (.httpError status) = false) := by
  refine ⟨?_, ?_, ?_, ?_⟩
  · intro st now outcome
    constructor
    · rintro ⟨e, he, hreq⟩
      cases hact : active_credentials st with
      | none => exact Or.inl rfl
      | some c =>
        rw [get_valid_token] at he
        rw [hact] at he
        simp only at he
        by_cases hexp : is_expired now c = true
        · rw [if_pos hexp] at he
          rw [refresh_cred.eq_def] at he
          by_cases hrt : (c.refresh_token == "") = true
          · rw [if_pos hrt] at he
            exact Or.inr ⟨c, rfl, hexp, beq_iff_eq.mp hrt⟩
          · rw [if_neg hrt] at he
            cases outcome with
            | error status =>
              simp only [Except.error.injEq] at he
              rw [← he] at hreq
              simp [is_auth_required] at hreq
            | ok data => simp at he
        · rw [if_neg hexp] at he
          simp at he
    · rintro (hnone | ⟨c, hact, hexp, hrt⟩)
      · refine ⟨.notAuthenticated, ?_, rfl⟩
        rw [get_valid_token, hnone]
      · refine ⟨.noRefreshToken, ?_, rfl⟩
        rw [get_valid_token, hact]
        simp only
        rw [if_pos hexp, refresh_cred.eq_def, if_pos (beq_iff_eq.mpr hrt)]
  · intro st now outcome c hact hexp
    rw [get_valid_token, hact]
    simp only
    rw [if_neg (by rw [hexp]; simp)]
  · intro st now c data hact hexp hrt
    refine ⟨⟨aset st.accounts st.active_email
      ⟨data.access_token, data.refresh_token.getD c.refresh_token,
        now + data.expires_in.getD 3600, c.email⟩, st.active_email⟩, ?_⟩
    rw [get_valid_token, hact]
    simp only
    rw [if_pos hexp, refresh_cred.eq_def,
      if_neg (by rw [beq_eq_false_iff_ne.mpr hrt]; simp)]
  · intro st now c status hact hexp hrt
    refine ⟨?_, rfl⟩
    rw [get_valid_token, hact]
    simp only
    rw [if_pos hexp, refresh_cred.eq_def,
      if_neg (by rw [beq_eq_false_iff_ne.mpr hrt]; simp)]

/-- C5 witness: an unexpired credential is returned without refresh, and an
expired credential with a refresh token yields the refreshed token. -/
theorem C5_get_valid_token_witness :
    get_valid_token ⟨[("u", ⟨"tokA", "r", 10000, "u"⟩)], "u"⟩ 0
        (.ok ⟨"tokB", some 3600, Option.none⟩) =
      .ok ("tokA", ⟨[("u", ⟨"tokA", "r", 10000, "u"⟩)], "u"⟩, false)
    ∧ ∃ st2, get_valid_token ⟨[("u", ⟨"tokA", "r", 10000, "u"⟩)], "u"⟩ 20000
        (.ok ⟨"tokB", some 3600, Option.none⟩) = .ok ("tokB", st2, true) := by
  constructor
  · exact C5_get_valid_token_amended.2.1
      ⟨[("u", ⟨"tokA", "r", 10000, "u"⟩)], "u"⟩ 0
      (.ok ⟨"tokB", some 3600, Option.none⟩) ⟨"tokA", "r", 10000, "u"⟩
      (by simp [active_credentials, alookup])
      (by simp only [is_expired, decide_eq_false_iff_not]; norm_num)
  · exact C5_get_valid_token_amended.2.2.1
      ⟨[("u", ⟨"tokA", "r", 10000, "u"⟩)], "u"⟩ 20000
      ⟨"tokA", "r", 10000, "u"⟩ ⟨"tokB", some 3600, Option.none⟩
      (by simp [active_credentials, alookup])
      (by simp only [is_expired, decide_eq_true_eq]; norm_num)
      (by simp)

/-! ### Model name resolution (provider.py, _resolve_model)

Lean's built-in `String` functions do not reduce well in the kernel, so
the string operations are defined over the character list. -/

/-- Lower-casing, `s.lower()` (ASCII-relevant here). -/
def str_lower (s : String) : String := ⟨s.data.map Char.toLower⟩

/-- Character-list prefix test. -/
def chars_startsWith : List Char → List Char → Bool
  | _, [] => true
  | [], _ :: _ => false
  | c :: cs, p :: ps => c == p && chars_startsWith cs ps

/-- `s.startswith(p)`. -/
def str_startsWith (s p : String) : Bool := chars_startsWith s.data p.data

/-- `s.endswith(p)`. -/
def str_endsWith (s p : String) : Bool :=
  chars_startsWith s.data.reverse p.data.reverse

/-- `s[n:]`. -/
def str_drop (s : String) (n : Nat) : String := ⟨s.data.drop n⟩

/-- `s[:-n]` (assuming n ≤ len(s)). -/
def str_dropRight (s : String) (n : Nat) : String :=
  ⟨s.data.take (s.data.length - n)⟩

/-- `len(s)`. -/
def str_len (s : String) : Nat := s.data.length

/-- `s.strip()`: whitespace removed from both ends. -/
def str_trim (s : String) : String :=
  ⟨((s.data.dropWhile Char.isWhitespace).reverse.dropWhile
      Char.isWhitespace).reverse⟩

/-- LiteLLM provider prefixes stripped by the resolver, in order. -/
def LITELLM_PREFIXES : List String :=
  ["anthropic/", "openai/", "google/", "bedrock/", "vertex_ai/",
   "deepseek/", "groq/", "openrouter/"]

/-- Model aliases (constants.py MODEL_ALIASES). -/
def MODEL_ALIASES : List (String × String) :=
  [("claude-opus-4-5", "claude-opus-4-6-thinking"),
   ("claude-opus-4-5-thinking", "claude-opus-4-6-thinking"),
   ("claude-opus-4-6", "claude-opus-4-6-thinking")]

/-- `MODEL_ALIASES.get(m)`. -/
def alias_lookup : List (String × String) → String → Option String
  | [], _ => Option.none
  | (k, v) :: rest, m => if k == m then some v else alias_lookup rest m

/-- Gemini-3-Pro tier suffixes. -/
def TIER_SUFFIXES : List String := ["-minimal", "-low", "-medium", "-high"]

/-- Stage 1: strip the first matching LiteLLM provider prefix
(case-insensitive match, then break). -/
def strip_litellm (s : String) : String :=
  match LITELLM_PREFIXES.find? (fun p => str_startsWith (str_lower s) p) with
  | some p => str_drop s (str_len p)
  | Option.none => s

/-- Stage 2: strip a leading `antigravity-`. -/
def strip_antigravity (s : String) : String :=
  if str_startsWith (str_lower s) "antigravity-" then
    str_drop s (str_len "antigravity-")
  else s

/-- Stage 3: strip a trailing `-preview`. -/
def strip_preview (s : String) : String :=
  if str_endsWith (str_lower s) "-preview" then
    str_dropRight s (str_len "-preview")
  else s

/-- Stage 4: apply the alias map. -/
def apply_alias (s : String) : String := (alias_lookup MODEL_ALIASES s).getD s

/-- Stage 5: append `-low` to a gemini-3-pro name without a tier suffix. -/
def apply_gemini_tier (s : String) : String :=
  if str_startsWith (str_lower s) "gemini-3-pro" &&
      !(TIER_SUFFIXES.any (fun suf => str_endsWith (str_lower s) suf)) then
    s ++ "-low"
  else s

/-- `_resolve_model` (provider.py): trim, strip one LiteLLM prefix, strip
`antigravity-`, strip `-preview`, apply aliases, default gemini-3-pro tier. -/
def resolve_model (model : String) : String :=
  let r0 := str_trim model
  let r1 :=
    match LITELLM_PREFIXES.find? (fun p => str_startsWith (str_lower r0) p) with
    | some p => str_drop r0 (str_len p)
    | Option.none => r0
  let r2 :=
    if str_startsWith (str_lower r1) "antigravity-" then
      str_drop r1 (str_len "antigravity-")
    else r1
  let r3 :=
    if str_endsWith (str_lower r2) "-preview" then
      str_dropRight r2 (str_len "-preview")
    else r2
  let r4 := (alias_lookup MODEL_ALIASES r3).getD r3
  if str_startsWith (str_lower r4) "gemini-3-pro" &&
      !(TIER_SUFFIXES.any (fun suf => str_endsWith (str_lower r4) suf)) then
    r4 ++ "-low"
  else r4

/-- C6: `_resolve_model` factors as exactly the claimed pipeline — strip
one LiteLLM provider prefix, strip `antigravity-`, strip `-preview`, apply
the alias map, then append `-low` to an untier-suffixed gemini-3-pro name
(after an initial whitespace trim) — and in particular maps `gemini-3-pro`
to `gemini-3-pro-low` and `anthropic/claude-opus-4-5` to
`claude-opus-4-6-thinking`. -/
theorem C6_resolve_model_pipeline :
    (∀ m : String, resolve_model m =
      apply_gemini_tier (apply_alias (strip_preview (strip_antigravity
        (strip_litellm (str_trim m))))))
    ∧ resolve_model "gemini-3-pro" = "gemini-3-pro-low"
    ∧ resolve_model "anthropic/claude-opus-4-5" = "claude-opus-4-6-thinking" := by
  refine ⟨fun m => rfl, ?_, ?_⟩ <;> decide

/-- C10 counterexample: resolution is not idempotent — stripping
`openrouter/` exposes an `anthropic/` prefix which a second resolution
strips (and the alias map then rewrites the result). -/
theorem C10_resolve_model_counterexample :
    resolve_model (resolve_model "openrouter/anthropic/claude-opus-4-5") ≠
      resolve_model "openrouter/anthropic/claude-opus-4-5" := by
  decide

/-- A resolved name no transformation of `_resolve_model` applies to. -/
def resolve_stable (s : String) : Bool :=
  (str_trim s == s) &&
  LITELLM_PREFIXES.all (fun p => !(str_startsWith (str_lower s) p)) &&
  !(str_startsWith (str_lower s) "antigravity-") &&
  !(str_endsWith (str_lower s) "-preview") &&
  (alias_lookup MODEL_ALIASES s).isNone &&
  (!(str_startsWith (str_lower s) "gemini-3-pro") ||
    TIER_SUFFIXES.any (fun suf => str_endsWith (str_lower s) suf))

theorem resolve_model_of_stable (s : String) (h : resolve_stable s = true) :
    resolve_model s = s := by
  simp only [resolve_stable, Bool.and_eq_true, Bool.not_eq_true',
    Bool.or_eq_true, List.all_eq_true] at h
  obtain ⟨⟨⟨⟨⟨htrim, hpre⟩, hanti⟩, hprev⟩, halias⟩, htier⟩ := h
  have htrim' : str_trim s = s := beq_iff_eq.mp htrim
  have hfind : LITELLM_PREFIXES.find?
      (fun p => str_startsWith (str_lower s) p) = Option.none := by
    rw [List.find?_eq_none]
    intro p hp
    rw [hpre p hp]
    simp
  rw [resolve_model]
  simp only [htrim', hfind, hanti, Bool.false_eq_true, ite_false]
  simp only [hprev, Bool.false_eq_true, ite_false]
  cases hal : alias_lookup MODEL_ALIASES s with
  | some v => rw [hal] at halias; simp at halias
  | none =>
    simp only [hal, Option.getD_none]
    rcases htier with ht | ht
    · simp [ht]
    · simp [ht]

/-- C10 (amended): `_resolve_model` is idempotent at every model name
whose resolution is stable — trimmed, carrying no LiteLLM or
`antigravity-` prefix, no `-preview` suffix, not an alias key, and not an
untier-suffixed gemini-3-pro name. It is not idempotent in general (see
the counterexample with two stacked provider prefixes). -/
theorem C10_resolve_model_amended (m : String)
    (h : resolve_stable (resolve_model m) = true) :
    resolve_model (resolve_model m) = resolve_model m :=
  resolve_model_of_stable (resolve_model m) h

/-- C10 witness: an ordinary catalog name resolves to a stable name, where
resolution is idempotent. -/
theorem C10_resolve_model_witness :
    resolve_stable (resolve_model "claude-sonnet-4-5") = true ∧
    resolve_model (resolve_model "claude-sonnet-4-5") =
      resolve_model "claude-sonnet-4-5" :=
  ⟨by decide, C10_resolve_model_amended "claude-sonnet-4-5" (by decide)⟩

/-! ### Metrics JSONL reading (collector.py, MetricsCollector._read) -/

/-- `_read`'s line loop: strip each line, skip blank lines, JSON-parse the
rest (`parse` models `json.loads`). The single `try` wraps the whole loop,
so the first parse failure aborts the read and returns the records
collected so far. -/
def read_jsonl {R : Type} (parse : String → Option R) : List String → List R
  | [] => []
  | raw :: rest =>
    let t := str_trim raw
    if t == "" then read_jsonl parse rest
    else
      match parse t with
      | some v => v :: read_jsonl parse rest
      | Option.none => []

/-- What the claim says `_read` does: skip exactly the corrupt lines and
return every other valid non-blank line's record, in order. -/
def read_jsonl_claimed {R : Type} (parse : String → Option R)
    (lines : List String) : List R :=
  ((lines.map str_trim).filter (fun t => !(t == ""))).filterMap parse

/-- `_read` including the tail `limit` slice (`lines[-limit:]`). -/
def metrics_read {R : Type} (parse : String → Option R)
    (lines : List String) (limit : Nat) : List R :=
  let l := read_jsonl parse lines
  if 0 < limit then l.drop (l.length - limit) else l

/-- C8 counterexample: with a parser accepting `a` and `b` but not `c`,
the file `a / c / b` yields only `a`'s record — the corrupt line is not
skipped, it aborts the read, dropping the valid line after it. -/
theorem C8_metrics_read_counterexample :
    read_jsonl
        (fun s => if s == "a" then some 0 else if s == "b" then some 1
          else (Option.none : Option Nat))
        ["a", "c", "b"] = [0]
    ∧ read_jsonl_claimed
        (fun s => if s == "a" then some 0 else if s == "b" then some 1
          else (Option.none : Option Nat))
        ["a", "c", "b"] = [0, 1]
    ∧ ([0] : List Nat) ≠ [0, 1] := by
  refine ⟨rfl, rfl, by decide⟩

/-- C8 (amended): `_read` returns the parsed records of the longest prefix
of valid non-blank lines, in file order; the first corrupt line and every
line after it are dropped (with one warning). -/
theorem C8_metrics_read_amended {R : Type} (parse : String → Option R)
    (lines : List String) :
    read_jsonl parse lines =
      (((lines.map str_trim).filter (fun t => !(t == ""))).takeWhile
        (fun t => (parse t).isSome)).filterMap parse := by
  induction lines with
  | nil => rfl
  | cons raw rest ih =>
    rw [read_jsonl]
    by_cases hblank : (str_trim raw == "") = true
    · rw [if_pos hblank]
      simp only [List.map_cons, List.filter_cons, hblank, Bool.not_true,
        Bool.false_eq_true, ite_false]
      exact ih
    · rw [if_neg hblank]
      simp only [List.map_cons, List.filter_cons, hblank, Bool.not_false,
        ite_true]
      cases hp : parse (str_trim raw) with
      | some v =>
        simp only [List.takeWhile_cons, hp, Option.isSome_some, ite_true,
          List.filterMap_cons, hp]
        rw [ih]
      | none =>
        simp only [List.takeWhile_cons, hp, Option.isSome_none,
          Bool.false_eq_true, ite_false, List.filterMap_nil]

/-! ### Request headers (constants.py, provider.py) -/

def ANTIGRAVITY_VERSION : String := "1.15.8"

/-- Platform strings the User-Agent is randomized over. -/
def ANTIGRAVITY_PLATFORMS : List String :=
  ["windows/amd64", "darwin/arm64", "darwin/amd64"]

/-- `get_randomized_user_agent`: `random.choice` is modelled by the chosen
platform string. -/
def get_randomized_user_agent (plat : String) : String :=
  "antigravity/" ++ ANTIGRAVITY_VERSION ++ " " ++ plat

/-- DEFAULT_HEADERS — the full header set used for discovery
(loadCodeAssist) only; `platformTag` models `platform.system()`. -/
def DEFAULT_HEADERS (platformTag : String) : List (String × String) :=
  [("Content-Type", "application/json"),
   ("User-Agent",
    "Mozilla/5.0 (Windows NT 10.0; Win64; x64) AppleWebKit/537.36 " ++
      "(KHTML, like Gecko) Antigravity/" ++ ANTIGRAVITY_VERSION ++
      " Chrome/138.0.7204.235 Electron/37.3.1 Safari/537.36"),
   ("X-Goog-Api-Client", "google-cloud-sdk vscode_cloudshelleditor/0.1"),
   ("Client-Metadata",
    "\x7b\"ideType\":\"ANTIGRAVITY\",\"platform\":\"" ++ platformTag ++
      "\",\"pluginType\":\"GEMINI\"\x7d")]

/-- `get_content_request_headers`: only a randomized User-Agent. -/
def get_content_request_headers (plat : String) : List (String × String) :=
  [("User-Agent", get_randomized_user_agent plat)]

/-- Headers `_request_with_retry` (chat) explicitly attaches. -/
def chat_request_headers (plat token : String) : List (String × String) :=
  get_content_request_headers plat ++ [("Authorization", "Bearer " ++ token)]

/-- Headers `stream_chat` explicitly attaches. -/
def stream_request_headers (plat token : String) : List (String × String) :=
  get_content_request_headers plat ++
    [("Authorization", "Bearer " ++ token), ("Accept", "text/event-stream")]

/-- Headers `_ensure_project_id` (discovery) explicitly attaches. -/
def discovery_request_headers (platformTag token : String) :
    List (String × String) :=
  DEFAULT_HEADERS platformTag ++ [("Authorization", "Bearer " ++ token)]

/-- Header names of a header list. -/
def header_keys (hs : List (String × String)) : List String := hs.map Prod.fst

/-- C9 counterexample: a streaming content request also attaches an
`Accept: text/event-stream` header, so its explicitly attached header set
is not exactly `\x7bUser-Agent, Authorization\x7d`. -/
theorem C9_headers_counterexample :
    "Accept" ∈ header_keys (stream_request_headers "darwin/arm64" "tok")
    ∧ "Accept" ∉ ["User-Agent", "Authorization"] := by
  constructor
  · simp [header_keys, stream_request_headers, get_content_request_headers]
  · decide

/-- C9 (amended): chat content requests explicitly attach exactly
User-Agent and Authorization; streaming content requests additionally
attach Accept; neither carries X-Goog-Api-Client or Client-Metadata, while
discovery requests carry both. -/
theorem C9_headers_amended (plat token platformTag : String) :
    header_keys (chat_request_headers plat token) =
      ["User-Agent", "Authorization"]
    ∧ header_keys (stream_request_headers plat token) =
      ["User-Agent", "Authorization", "Accept"]
    ∧ "X-Goog-Api-Client" ∉ header_keys (chat_request_headers plat token)
    ∧ "Client-Metadata" ∉ header_keys (chat_request_headers plat token)
    ∧ "X-Goog-Api-Client" ∉ header_keys (stream_request_headers plat token)
    ∧ "Client-Metadata" ∉ header_keys (stream_request_headers plat token)
    ∧ "X-Goog-Api-Client" ∈
      header_keys (discovery_request_headers platformTag token)
    ∧ "Client-Metadata" ∈
      header_keys (discovery_request_headers platformTag token) := by
  refine ⟨rfl, rfl, ?_, ?_, ?_, ?_, ?_, ?_⟩ <;>
    simp [header_keys, chat_request_headers, stream_request_headers,
      discovery_request_headers, get_content_request_headers, DEFAULT_HEADERS]

end Nanobot
